import Mathlib

/-!
Verification development for the ECMAScript module resolver in
`lib/internal/modules/esm/resolve.js`.

JavaScript strings are modelled as `List Char`; the JS string primitives
(`StringPrototypeSlice`, `StringPrototypeStartsWith`, ...) map to list
operations.  External collaborators that live outside this repository
(`internal/url`'s WHATWG `URL` class, the `internalModuleStat` binding,
`packageJsonReader`, `BuiltinModule`, `realpathSync`) are passed in as
function parameters; where a concrete instance is needed (witnesses and
counterexamples) a model of the collaborator is supplied, written from the
specification's description of it.
-/

set_option maxHeartbeats 1000000

namespace NodeResolve

/-! ## Pattern matcher (`packageExportsResolve` scan loop + `patternKeyCompare`) -/

/-- First-star decomposition of a key: `splitAtStar k = some (pfx, sfx)` when
`k = pfx ++ '*' :: sfx` with `pfx` star-free.  This packages the JS idiom
`patternIndex = StringPrototypeIndexOf(key, '*')` together with the slices
`key.slice(0, patternIndex)` and `key.slice(patternIndex + 1)`. -/
def splitAtStar : List Char → Option (List Char × List Char)
  | [] => none
  | c :: rest =>
    if c = '*' then some ([], rest)
    else (splitAtStar rest).map (fun pr => (c :: pr.1, pr.2))

/-- JS `aPatternIndex === -1 ? a.length : aPatternIndex + 1` from
`patternKeyCompare`. -/
def baseLen (k : List Char) : Nat :=
  match splitAtStar k with
  | none => k.length
  | some pr => pr.1.length + 1

/-- Length of the star-free part before the first `'*'` (0 for keys without a
star). -/
def starPfxLen (k : List Char) : Nat :=
  match splitAtStar k with
  | none => 0
  | some pr => pr.1.length

/-- Direct translation of `patternKeyCompare(a, b)` (resolve.js:592-604). -/
def patternKeyCompare (a b : List Char) : Int :=
  if baseLen a > baseLen b then -1
  else if baseLen b > baseLen a then 1
  else if (splitAtStar a).isNone then 1
  else if (splitAtStar b).isNone then -1
  else if a.length > b.length then -1
  else if b.length > a.length then 1
  else 0

/-- The conditions under which the scan loop in `packageExportsResolve`
(resolve.js:539-568) accepts `k` as matching the queried subpath `q`
(ignoring the running-best comparison): the key has a `'*'`, `q` starts with
the key's star-free head, `q` is at least as long as the key, `q` ends with
the key's tail, and the tail holds no further `'*'`
(`StringPrototypeLastIndexOf(key, '*') === patternIndex`). -/
def patternMatches (q k : List Char) : Bool :=
  match splitAtStar k with
  | none => false
  | some (pfx, sfx) =>
    pfx.isPrefixOf q && decide (k.length ≤ q.length) && sfx.isSuffixOf q
      && !(sfx.contains '*')

/-- The captured middle `packageSubpath.slice(patternIndex,
packageSubpath.length - patternTrailer.length)`. -/
def starCapture (q pfx sfx : List Char) : List Char :=
  (q.take (q.length - sfx.length)).drop pfx.length

/-- One iteration of the scan loop in `packageExportsResolve`
(resolve.js:541-568): a key replaces the running best exactly when it
matches and `patternKeyCompare(bestMatch, key) === 1`. -/
def patternStep (q : List Char) (best : List Char × List Char)
    (k : List Char) : List Char × List Char :=
  match splitAtStar k with
  | none => best
  | some (pfx, sfx) =>
    if pfx.isPrefixOf q && decide (k.length ≤ q.length)
        && sfx.isSuffixOf q && decide (patternKeyCompare best.1 k = 1)
        && !(sfx.contains '*')
    then (k, starCapture q pfx sfx)
    else best

/-- The scan loop of `packageExportsResolve` (resolve.js:541-568), also used
verbatim by `packageImportsResolve` (resolve.js:636-654).  The accumulator is
the pair (`bestMatch`, `bestMatchSubpath`), started at `('', '')`. -/
def patternLoop (q : List Char) : List (List Char) → List Char × List Char →
    List Char × List Char
  | [], best => best
  | k :: rest, best => patternLoop q rest (patternStep q best k)

/-- The selected pattern key (`bestMatch` after the scan; `[]` plays the role
of the initial `''`, which no key can equal since a matching key contains
`'*'`). -/
def bestPatternKey (q : List Char) (keys : List (List Char)) : List Char :=
  (patternLoop q keys ([], [])).1

/-! ### Pattern-matcher lemmas -/

theorem splitAtStar_eq {k p s : List Char} (h : splitAtStar k = some (p, s)) :
    k = p ++ '*' :: s ∧ '*' ∉ p := by
  induction k generalizing p s with
  | nil => simp [splitAtStar] at h
  | cons c rest ih =>
    unfold splitAtStar at h
    by_cases hc : c = '*'
    · rw [if_pos hc] at h
      have hp : p = [] := (Prod.mk.injEq _ _ _ _ ▸ Option.some.inj h).1.symm
      have hs : s = rest := (Prod.mk.injEq _ _ _ _ ▸ Option.some.inj h).2.symm
      subst hp
      subst hs
      simp [hc]
    · rw [if_neg hc] at h
      rcases Option.map_eq_some'.mp h with ⟨pr, hpr, heq⟩
      have h1 : c :: pr.1 = p := congrArg Prod.fst heq
      have h2 : pr.2 = s := congrArg Prod.snd heq
      obtain ⟨hk, hns⟩ := ih (show splitAtStar rest = some (pr.1, s) by
        rw [hpr, ← h2])
      constructor
      · rw [← h1]
        simp [hk]
      · rw [← h1]
        simp only [List.mem_cons, not_or]
        exact ⟨fun hh => hc hh.symm, hns⟩

theorem patternMatches_ne_nil {q k : List Char}
    (h : patternMatches q k = true) : k ≠ [] := by
  intro hk
  subst hk
  simp [patternMatches, splitAtStar] at h

theorem isPrefixOf_eq_of_length {p1 p2 q : List Char}
    (h1 : p1.isPrefixOf q = true) (h2 : p2.isPrefixOf q = true)
    (hl : p1.length = p2.length) : p1 = p2 := by
  simp at h1 h2
  obtain ⟨t1, ht1⟩ := h1
  obtain ⟨t2, ht2⟩ := h2
  exact List.append_inj_left (ht1.trans ht2.symm) hl

theorem isSuffixOf_eq_of_length {s1 s2 q : List Char}
    (h1 : s1.isSuffixOf q = true) (h2 : s2.isSuffixOf q = true)
    (hl : s1.length = s2.length) : s1 = s2 := by
  simp at h1 h2
  obtain ⟨t1, ht1⟩ := h1
  obtain ⟨t2, ht2⟩ := h2
  have hts : t1.length = t2.length := by
    have e1 := congrArg List.length ht1
    have e2 := congrArg List.length ht2
    simp at e1 e2
    omega
  exact List.append_inj_right (ht1.trans ht2.symm) hts

/-- Two distinct keys matching the same subpath never tie: equal star-free
head lengths and equal total lengths force equality. -/
theorem patternMatches_tie {q k1 k2 : List Char}
    (h1 : patternMatches q k1 = true) (h2 : patternMatches q k2 = true)
    (hp : starPfxLen k1 = starPfxLen k2) (hl : k1.length = k2.length) :
    k1 = k2 := by
  unfold patternMatches at h1 h2
  rcases e1 : splitAtStar k1 with _ | ⟨p1, s1⟩ <;> rw [e1] at h1
  · exact absurd h1 (by simp)
  rcases e2 : splitAtStar k2 with _ | ⟨p2, s2⟩ <;> rw [e2] at h2
  · exact absurd h2 (by simp)
  simp only [Bool.and_eq_true, decide_eq_true_eq] at h1 h2
  obtain ⟨k1eq, -⟩ := splitAtStar_eq e1
  obtain ⟨k2eq, -⟩ := splitAtStar_eq e2
  have hpl : p1.length = p2.length := by
    simpa [starPfxLen, e1, e2] using hp
  have hsl : s1.length = s2.length := by
    rw [k1eq, k2eq] at hl
    simp at hl
    omega
  have hpe : p1 = p2 := isPrefixOf_eq_of_length h1.1.1.1 h2.1.1.1 hpl
  have hse : s1 = s2 := isSuffixOf_eq_of_length h1.1.2 h2.1.2 hsl
  rw [k1eq, k2eq, hpe, hse]

/-- Strict ordering meaning of `patternKeyCompare a b = 1` when both keys
hold a star. -/
theorem patternKeyCompare_eq_one_iff {a b : List Char}
    (ha : (splitAtStar a).isSome) (hb : (splitAtStar b).isSome) :
    patternKeyCompare a b = 1 ↔
      (baseLen a < baseLen b ∨ (baseLen a = baseLen b ∧ a.length < b.length)) := by
  rcases Option.isSome_iff_exists.mp ha with ⟨pa, hpa⟩
  rcases Option.isSome_iff_exists.mp hb with ⟨pb, hpb⟩
  unfold patternKeyCompare
  rw [hpa, hpb]
  by_cases h1 : baseLen a > baseLen b
  · rw [if_pos h1]
    constructor
    · intro h
      exact absurd h (by decide)
    · intro h
      exfalso
      omega
  rw [if_neg h1]
  by_cases h2 : baseLen b > baseLen a
  · rw [if_pos h2]
    constructor
    · intro h
      omega
    · intro h
      rfl
  rw [if_neg h2, if_neg (by simp : ¬ (some pa).isNone = true),
    if_neg (by simp : ¬ (some pb).isNone = true)]
  by_cases h3 : a.length > b.length
  · rw [if_pos h3]
    constructor
    · intro h
      exact absurd h (by decide)
    · intro h
      exfalso
      omega
  rw [if_neg h3]
  by_cases h4 : b.length > a.length
  · rw [if_pos h4]
    constructor
    · intro h
      omega
    · intro h
      rfl
  · rw [if_neg h4]
    constructor
    · intro h
      exact absurd h (by decide)
    · intro h
      exfalso
      omega

/-- Any star-holding key beats the initial `''` accumulator. -/
theorem patternKeyCompare_nil {b : List Char} (hb : (splitAtStar b).isSome) :
    patternKeyCompare [] b = 1 := by
  rcases Option.isSome_iff_exists.mp hb with ⟨pb, hpb⟩
  unfold patternKeyCompare
  simp [splitAtStar, baseLen, hpb]

/-- `a` is no better a match than `b`: smaller star position, or same star
position and no greater length. -/
def keyLE (a b : List Char) : Prop :=
  baseLen a < baseLen b ∨ (baseLen a = baseLen b ∧ a.length ≤ b.length)

theorem keyLE_refl (a : List Char) : keyLE a a := Or.inr ⟨rfl, Nat.le_refl _⟩

theorem keyLE_trans {a b c : List Char} (h1 : keyLE a b) (h2 : keyLE b c) :
    keyLE a c := by
  unfold keyLE at *
  omega

theorem keyLE_of_not_compare {a b : List Char}
    (ha : (splitAtStar a).isSome) (hb : (splitAtStar b).isSome)
    (h : ¬ patternKeyCompare a b = 1) : keyLE b a := by
  rw [patternKeyCompare_eq_one_iff ha hb] at h
  unfold keyLE
  omega

theorem patternMatches_isSome {q k : List Char}
    (h : patternMatches q k = true) : (splitAtStar k).isSome := by
  unfold patternMatches at h
  rcases e : splitAtStar k with _ | pr <;> rw [e] at h
  · exact absurd h (by simp)
  · simp

/-- Loop invariant for the scan: the final best is either the initial
accumulator, or a matching key from the scanned list; every matching key of
the scanned list is `keyLE` the final best; and the result only improves on a
matching initial best. -/
theorem patternLoop_spec (q : List Char) :
    ∀ (keys : List (List Char)) (best : List Char × List Char),
      (best.1 = [] ∨ patternMatches q best.1 = true) →
      (patternLoop q keys best = best ∨
        (patternMatches q (patternLoop q keys best).1 = true ∧
          (patternLoop q keys best).1 ∈ keys))
      ∧ (∀ k ∈ keys, patternMatches q k = true →
          keyLE k (patternLoop q keys best).1)
      ∧ (patternMatches q best.1 = true →
          keyLE best.1 (patternLoop q keys best).1) := by
  intro keys
  induction keys with
  | nil =>
    intro best hbest
    refine ⟨Or.inl rfl, ?_, ?_⟩
    · intro k hk
      simp at hk
    · intro h
      exact keyLE_refl _
  | cons k rest ih =>
    intro best hbest
    show _ ∧ _ ∧ _
    rcases e : splitAtStar k with _ | ⟨pfx, sfx⟩
    · -- key without '*': skipped
      have hstep : patternLoop q (k :: rest) best = patternLoop q rest best := by
        show patternLoop q rest (patternStep q best k) = _
        simp only [patternStep, e]
      obtain ⟨c1, c2, c3⟩ := ih best hbest
      refine ⟨?_, ?_, ?_⟩
      · rw [hstep]
        rcases c1 with h | h
        · exact Or.inl h
        · exact Or.inr ⟨h.1, List.mem_cons_of_mem _ h.2⟩
      · intro k2 hk2 hm2
        rw [hstep]
        rcases List.mem_cons.mp hk2 with h | h
        · rw [h] at hm2
          exact absurd (patternMatches_isSome hm2) (by simp [e])
        · exact c2 k2 h hm2
      · intro hm
        rw [hstep]
        exact c3 hm
    · by_cases hcond : (pfx.isPrefixOf q && decide (k.length ≤ q.length)
          && sfx.isSuffixOf q && decide (patternKeyCompare best.1 k = 1)
          && !(sfx.contains '*')) = true
      · -- update to k
        have hstep : patternLoop q (k :: rest) best
            = patternLoop q rest (k, starCapture q pfx sfx) := by
          show patternLoop q rest (patternStep q best k) = _
          have hps : patternStep q best k = (k, starCapture q pfx sfx) := by
            simp only [patternStep, e]
            rw [if_pos hcond]
          rw [hps]
        have hkm : patternMatches q k = true := by
          unfold patternMatches
          rw [e]
          simp only [Bool.and_eq_true] at hcond ⊢
          exact ⟨⟨⟨hcond.1.1.1.1, hcond.1.1.1.2⟩, hcond.1.1.2⟩, hcond.2⟩
        obtain ⟨c1, c2, c3⟩ := ih (k, starCapture q pfx sfx) (Or.inr hkm)
        have hcmp : patternKeyCompare best.1 k = 1 := by
          simp only [Bool.and_eq_true, decide_eq_true_eq] at hcond
          exact hcond.1.2
        refine ⟨?_, ?_, ?_⟩
        · rw [hstep]
          rcases c1 with h | h
          · refine Or.inr ⟨?_, ?_⟩
            · rw [h]
              exact hkm
            · rw [h]
              exact List.mem_cons_self _ _
          · exact Or.inr ⟨h.1, List.mem_cons_of_mem _ h.2⟩
        · intro k2 hk2 hm2
          rw [hstep]
          rcases List.mem_cons.mp hk2 with h | h
          · rw [h]
            exact c3 hkm
          · exact c2 k2 h hm2
        · intro hm
          rw [hstep]
          have hlt : keyLE best.1 k := by
            have := (patternKeyCompare_eq_one_iff
              (patternMatches_isSome hm) (by simp [e])).mp hcmp
            unfold keyLE
            omega
          exact keyLE_trans hlt (c3 hkm)
      · -- no update
        have hstep : patternLoop q (k :: rest) best = patternLoop q rest best := by
          show patternLoop q rest (patternStep q best k) = _
          have hps : patternStep q best k = best := by
            simp only [patternStep, e]
            rw [if_neg hcond]
          rw [hps]
        obtain ⟨c1, c2, c3⟩ := ih best hbest
        refine ⟨?_, ?_, ?_⟩
        · rw [hstep]
          rcases c1 with h | h
          · exact Or.inl h
          · exact Or.inr ⟨h.1, List.mem_cons_of_mem _ h.2⟩
        · intro k2 hk2 hm2
          rw [hstep]
          rcases List.mem_cons.mp hk2 with h | h
          · -- k2 = k matches but did not displace best:
            -- best must match and be no worse
            rw [h] at hm2
            have hm2b : (pfx.isPrefixOf q && decide (k.length ≤ q.length)
                && sfx.isSuffixOf q && !(sfx.contains '*')) = true := by
              unfold patternMatches at hm2
              rw [e] at hm2
              exact hm2
            simp only [Bool.and_eq_true] at hm2b
            have hbm : patternMatches q best.1 = true := by
              rcases hbest with hnil | hbm
              · exfalso
                apply hcond
                simp only [Bool.and_eq_true]
                refine ⟨⟨⟨⟨hm2b.1.1.1, hm2b.1.1.2⟩, hm2b.1.2⟩, ?_⟩, hm2b.2⟩
                rw [hnil]
                simp only [decide_eq_true_eq]
                exact patternKeyCompare_nil (by simp [e])
              · exact hbm
            have hncmp : ¬ patternKeyCompare best.1 k = 1 := by
              intro hc
              apply hcond
              simp only [Bool.and_eq_true]
              exact ⟨⟨⟨⟨hm2b.1.1.1, hm2b.1.1.2⟩, hm2b.1.2⟩,
                by simp only [decide_eq_true_eq]; exact hc⟩, hm2b.2⟩
            have hle : keyLE k best.1 :=
              keyLE_of_not_compare (patternMatches_isSome hbm)
                (patternMatches_isSome hm2) hncmp
            rw [h]
            exact keyLE_trans hle (c3 hbm)
          · exact c2 k2 h hm2
        · intro hm
          rw [hstep]
          exact c3 hm

theorem bestPatternKey_spec (q : List Char) (keys : List (List Char)) :
    (bestPatternKey q keys = [] ∨
      (patternMatches q (bestPatternKey q keys) = true ∧
        bestPatternKey q keys ∈ keys))
    ∧ (∀ k ∈ keys, patternMatches q k = true → keyLE k (bestPatternKey q keys)) := by
  obtain ⟨c1, c2, -⟩ := patternLoop_spec q keys ([], []) (Or.inl rfl)
  constructor
  · rcases c1 with h | h
    · refine Or.inl ?_
      unfold bestPatternKey
      rw [h]
    · exact Or.inr h
  · exact c2

theorem keyLE_nil_no_match {q k : List Char} (h : patternMatches q k = true) :
    ¬ keyLE k [] := by
  intro hle
  have hs := patternMatches_isSome h
  rcases Option.isSome_iff_exists.mp hs with ⟨pr, hpr⟩
  unfold keyLE at hle
  have e1 : baseLen k = pr.1.length + 1 := by simp [baseLen, hpr]
  have e2 : baseLen ([] : List Char) = 0 := by simp [baseLen, splitAtStar]
  have e3 : k.length ≠ 0 := by
    have := patternMatches_ne_nil h
    simpa using (List.length_pos.mpr this).ne'
  omega

theorem bestPatternKey_max (q : List Char) (keys : List (List Char))
    {k : List Char} (hk : k ∈ keys) (hm : patternMatches q k = true) :
    patternMatches q (bestPatternKey q keys) = true ∧
      bestPatternKey q keys ∈ keys ∧ keyLE k (bestPatternKey q keys) := by
  obtain ⟨c1, c2⟩ := bestPatternKey_spec q keys
  have hle := c2 k hk hm
  rcases c1 with h | h
  · rw [h] at hle
    exact absurd hle (keyLE_nil_no_match hm)
  · exact ⟨h.1, h.2, hle⟩

theorem bestPatternKey_perm (q : List Char) (keys keys2 : List (List Char))
    (hperm : keys.Perm keys2) :
    bestPatternKey q keys = bestPatternKey q keys2 := by
  obtain ⟨c1, c2⟩ := bestPatternKey_spec q keys
  obtain ⟨d1, d2⟩ := bestPatternKey_spec q keys2
  rcases c1 with h1 | h1
  · rcases d1 with h2 | h2
    · rw [h1, h2]
    · -- keys2 selected a match, so keys holds one too: contradiction with h1
      have hmem : bestPatternKey q keys2 ∈ keys := hperm.mem_iff.mpr h2.2
      have hle := c2 _ hmem h2.1
      rw [h1] at hle
      exact absurd hle (keyLE_nil_no_match h2.1)
  · rcases d1 with h2 | h2
    · have hmem : bestPatternKey q keys ∈ keys2 := hperm.mem_iff.mp h1.2
      have hle := d2 _ hmem h1.1
      rw [h2] at hle
      exact absurd hle (keyLE_nil_no_match h1.1)
    · have le12 : keyLE (bestPatternKey q keys) (bestPatternKey q keys2) :=
        d2 _ (hperm.mem_iff.mp h1.2) h1.1
      have le21 : keyLE (bestPatternKey q keys2) (bestPatternKey q keys) :=
        c2 _ (hperm.mem_iff.mpr h2.2) h2.1
      have hbase : baseLen (bestPatternKey q keys)
          = baseLen (bestPatternKey q keys2) := by
        unfold keyLE at le12 le21
        omega
      have hlen : (bestPatternKey q keys).length
          = (bestPatternKey q keys2).length := by
        unfold keyLE at le12 le21
        omega
      have hpfx : starPfxLen (bestPatternKey q keys)
          = starPfxLen (bestPatternKey q keys2) := by
        rcases Option.isSome_iff_exists.mp (patternMatches_isSome h1.1) with ⟨pr1, f1⟩
        rcases Option.isSome_iff_exists.mp (patternMatches_isSome h2.1) with ⟨pr2, f2⟩
        simp only [baseLen, starPfxLen, f1, f2] at hbase ⊢
        omega
      exact patternMatches_tie h1.1 h2.1 hpfx hlen

theorem baseLen_of_isSome {k : List Char} (h : (splitAtStar k).isSome) :
    baseLen k = starPfxLen k + 1 := by
  rcases Option.isSome_iff_exists.mp h with ⟨pr, hpr⟩
  simp [baseLen, starPfxLen, hpr]

/-- C1: among pattern keys containing exactly one `'*'` that match a subpath
query `q` (`q` starts with the key's star-free head, ends with its tail, and
is at least as long as the key), the exports/imports matcher selects the key
with the greatest head length before the star, breaking ties by the greatest
full key length; the selection is a total function (hence deterministic),
returns the empty sentinel exactly on a matchless key set, and is unchanged
under any permutation of the scan order. -/
theorem c1_pattern_matcher_best (q : List Char) (keys keys2 : List (List Char))
    (hperm : keys.Perm keys2) :
    (∀ k ∈ keys, patternMatches q k = true →
      patternMatches q (bestPatternKey q keys) = true ∧
        bestPatternKey q keys ∈ keys ∧
        (starPfxLen k < starPfxLen (bestPatternKey q keys) ∨
          (starPfxLen k = starPfxLen (bestPatternKey q keys) ∧
            k.length ≤ (bestPatternKey q keys).length)))
    ∧ ((∀ k ∈ keys, patternMatches q k = false) → bestPatternKey q keys = [])
    ∧ bestPatternKey q keys = bestPatternKey q keys2 := by
  refine ⟨?_, ?_, bestPatternKey_perm q keys keys2 hperm⟩
  · intro k hk hm
    obtain ⟨hbm, hbmem, hle⟩ := bestPatternKey_max q keys hk hm
    refine ⟨hbm, hbmem, ?_⟩
    have e1 := baseLen_of_isSome (patternMatches_isSome hm)
    have e2 := baseLen_of_isSome (patternMatches_isSome hbm)
    unfold keyLE at hle
    omega
  · intro hall
    obtain ⟨c1, -⟩ := bestPatternKey_spec q keys
    rcases c1 with h | h
    · exact h
    · rw [hall _ h.2] at h
      exact absurd h.1 (by simp)

/-- Witness for `c1_pattern_matcher_best` at concrete inputs: subpath
`./a/b` against keys `./a/*` and `./*` in both scan orders. -/
theorem c1_pattern_matcher_best_witness :
    (patternMatches ("./a/b".toList) (bestPatternKey ("./a/b".toList)
        [("./a/*".toList), ("./*".toList)]) = true)
    ∧ bestPatternKey ("./a/b".toList) [("./a/*".toList), ("./*".toList)]
      = bestPatternKey ("./a/b".toList) [("./*".toList), ("./a/*".toList)] := by
  have h := c1_pattern_matcher_best ("./a/b".toList)
    [("./a/*".toList), ("./*".toList)] [("./*".toList), ("./a/*".toList)]
    (by decide)
  exact ⟨(h.1 ("./a/*".toList) (by decide) (by decide)).1, h.2.2⟩

/-! ## Target resolver (`resolvePackageTarget`, resolve.js:411-477) -/

/-- Error kinds of the resolver's thrown errors (resolve.js error
taxonomy). -/
inductive ErrKind where
  | invalidPackageTarget
  | invalidPackageConfig
  | invalidModuleSpecifier
  | packageSubpathNotExported
  | packageImportNotDefined
  | moduleNotFound
  | unsupportedDirImport
  | networkImportDisallowed
  | otherError
deriving DecidableEq

/-- The slice of a WHATWG `URL` object the resolver reads and returns. -/
structure JsUrl where
  protocol : List Char
  pathname : List Char
  search : List Char
  hash : List Char
  href : List Char
deriving DecidableEq

/-- Result of `resolvePackageTarget`: a resolved URL, JS `null` ("explicitly
blocked"), JS `undefined` ("no applicable branch"), or a thrown error. -/
inductive RRes where
  | ok (u : JsUrl)
  | nul
  | undef
  | err (e : ErrKind)
deriving DecidableEq

/-- JSON-shaped `exports` / `imports` target values: a string, an ordered
array, a key-ordered object (list order = insertion order of the source
`package.json`, the order `ObjectGetOwnPropertyNames` yields for the
non-numeric keys the resolver accepts), JSON `null`, or any other JSON shape
(number, boolean), which `resolvePackageTarget` rejects. -/
inductive Target where
  | str (s : List Char)
  | arr (ts : List Target)
  | obj (kvs : List (List Char × Target))
  | null
  | other

/-- The array loop of `resolvePackageTarget` (resolve.js:422-448) expressed
over the element results; `last` is `lastException` (`none` = JS
`undefined`, `some none` = JS `null`, `some (some e)` = a remembered thrown
error). -/
def targetListLoop : List RRes → Option (Option ErrKind) → RRes
  | [], last =>
    match last with
    | none => .undef
    | some none => .nul
    | some (some e) => .err e
  | r :: rest, last =>
    match r with
    | .err e =>
      if e = .invalidPackageTarget then targetListLoop rest (some (some e))
      else .err e
    | .undef => targetListLoop rest last
    | .nul => targetListLoop rest (some none)
    | .ok u => .ok u

/-- The condition-object loop of `resolvePackageTarget` (resolve.js:459-471)
over the per-key recursive results, visited in insertion order;
`applicable k` is `key === 'default' || conditions.has(key)`. -/
def targetObjLoop (applicable : List Char → Bool) :
    List (List Char × RRes) → RRes
  | [] => .undef
  | (k, r) :: rest =>
    if applicable k then
      match r with
      | .undef => targetObjLoop applicable rest
      | r2 => r2
    else targetObjLoop applicable rest

/-- Recursion of `resolvePackageTarget` (resolve.js:411-477) over the target
shape.  `rs` stands for the `resolvePackageTargetString` call with the
ambient arguments (`packageJSONUrl`, `subpath`, `packageSubpath`, `base`,
`pattern`, `internal`, `isPathMap`, `conditions`) fixed, since the recursion
passes them through unchanged; `isAI` is the predicate `isArrayIndex`
(resolve.js:392-396), kept abstract because it hinges on the JS `ToNumber`
float coercion; `inConds` is membership in the condition set.  Elementwise
results are computed eagerly, which is observationally equal to the source's
lazy loops because resolution is modelled as a pure function. -/
def resolveTarget (rs : List Char → RRes) (isAI : List Char → Bool)
    (inConds : List Char → Bool) : Target → RRes
  | .str s => rs s
  | .arr ts =>
    if ts.isEmpty then .nul
    else targetListLoop
      (ts.attach.map (fun t => resolveTarget rs isAI inConds t.1)) none
  | .obj kvs =>
    if kvs.any (fun kv => isAI kv.1) then .err .invalidPackageConfig
    else targetObjLoop
      (fun k => decide (k = ("default".toList)) || inConds k)
      (kvs.attach.map (fun kv => (kv.1.1, resolveTarget rs isAI inConds kv.1.2)))
  | .null => .nul
  | .other => .err .invalidPackageTarget
termination_by t => sizeOf t
decreasing_by
  all_goals simp_wf
  · have h1 := List.sizeOf_lt_of_mem t.2
    omega
  · have h1 := List.sizeOf_lt_of_mem kv.2
    have h2 : sizeOf kv.1.2 < sizeOf kv.1 := by
      obtain ⟨⟨a, b⟩, hm⟩ := kv
      simp
    omega

/-- Wording of C2's terminating outcomes: a success returns immediately and
any thrown error other than `InvalidPackageTarget` propagates immediately. -/
def listTerminates (r : RRes) : Bool :=
  match r with
  | .ok _ => true
  | .err e => !(decide (e = .invalidPackageTarget))
  | _ => false

/-- Wording of C2's remembered outcomes: `Null` ("explicitly blocked") and a
thrown `InvalidPackageTarget`. -/
def listRemembered (r : RRes) : Bool :=
  match r with
  | .nul => true
  | .err e => decide (e = .invalidPackageTarget)
  | _ => false

/-- The last remembered outcome, or `dflt` when no element was applicable. -/
def claimRemembered (rs : List RRes) (dflt : RRes) : RRes :=
  match (rs.filter listRemembered).getLast? with
  | some r => r
  | none => dflt

/-- C2's list rule stated from the claim's wording, over the per-element
results: the empty list yields `Null`; otherwise the first terminating
element wins; after exhausting the list, the last remembered outcome (a
`Null` block or an `InvalidPackageTarget`) is returned, or `Undefined` when
nothing was applicable. -/
def claimListResolve (rs : List RRes) : RRes :=
  if rs = [] then .nul
  else
    match rs.find? listTerminates with
    | some r => r
    | none => claimRemembered rs .undef

theorem targetListLoop_claim (rss : List RRes) :
    ∀ last, targetListLoop rss last =
      (match rss.find? listTerminates with
       | some r => r
       | none => claimRemembered rss (targetListLoop [] last)) := by
  induction rss with
  | nil =>
    intro last
    simp [List.find?, claimRemembered, List.filter]
  | cons r rest ih =>
    intro last
    cases r with
    | ok u =>
      simp [targetListLoop, List.find?, listTerminates]
    | nul =>
      rw [List.find?]
      have hterm : listTerminates RRes.nul = false := by decide
      rw [hterm]
      have hfil : (RRes.nul :: rest).filter listRemembered
          = RRes.nul :: rest.filter listRemembered := by
        simp [List.filter, listRemembered]
      show targetListLoop rest (some none) = _
      rw [ih (some none)]
      unfold claimRemembered
      rw [hfil, List.getLast?_cons]
      cases hl : (rest.filter listRemembered).getLast? with
      | none => simp [targetListLoop]
      | some r2 => simp
    | undef =>
      rw [List.find?]
      have hterm : listTerminates RRes.undef = false := by decide
      rw [hterm]
      have hfil : (RRes.undef :: rest).filter listRemembered
          = rest.filter listRemembered := by
        simp [List.filter, listRemembered]
      show targetListLoop rest last = _
      rw [ih last]
      unfold claimRemembered
      rw [hfil]
    | err e =>
      by_cases he : e = ErrKind.invalidPackageTarget
      · subst he
        rw [List.find?]
        have hterm : listTerminates (RRes.err ErrKind.invalidPackageTarget)
            = false := by decide
        rw [hterm]
        have hfil : (RRes.err ErrKind.invalidPackageTarget :: rest).filter listRemembered
            = RRes.err ErrKind.invalidPackageTarget :: rest.filter listRemembered := by
          simp [List.filter, listRemembered]
        have hstep : targetListLoop (RRes.err ErrKind.invalidPackageTarget :: rest) last
            = targetListLoop rest (some (some ErrKind.invalidPackageTarget)) := by
          simp [targetListLoop]
        rw [hstep, ih (some (some ErrKind.invalidPackageTarget))]
        unfold claimRemembered
        rw [hfil, List.getLast?_cons]
        cases hl : (rest.filter listRemembered).getLast? with
        | none => simp [targetListLoop]
        | some r2 => simp
      · have hstep : targetListLoop (RRes.err e :: rest) last = .err e := by
          simp [targetListLoop, he]
        rw [hstep, List.find?]
        have hterm : listTerminates (RRes.err e) = true := by
          simp [listTerminates, he]
        rw [hterm]

/-- C2: the list variant of the target resolver follows the claim's rule
exactly: the empty list yields `Null`; elements are tried in order with a
success or a non-`InvalidPackageTarget` error terminating immediately; an
`Undefined` element is skipped; `Null` and thrown `InvalidPackageTarget`
are remembered, the last remembered outcome deciding the result after
exhaustion, and `Undefined` results when nothing was applicable. -/
theorem c2_list_target_resolution (rs : List Char → RRes)
    (isAI : List Char → Bool) (inConds : List Char → Bool)
    (ts : List Target) :
    resolveTarget rs isAI inConds (.arr ts)
      = claimListResolve (ts.map (resolveTarget rs isAI inConds)) := by
  rw [resolveTarget]
  rw [List.attach_map_val ts (resolveTarget rs isAI inConds)]
  by_cases hts : ts.isEmpty
  · have : ts = [] := by simpa using hts
    subst this
    simp [claimListResolve]
  · have hne : ¬ ts.map (resolveTarget rs isAI inConds) = [] := by
      simp only [List.map_eq_nil_iff]
      simpa using hts
    rw [if_neg hts]
    unfold claimListResolve
    rw [if_neg hne]
    rw [targetListLoop_claim]
    rfl

/-- C3's condition-object rule stated from the claim's wording, over the
per-key recursive results in insertion order: the first applicable key
(`default` or a member of the condition set) whose result is not `Undefined`
decides; otherwise `Undefined`. -/
def claimMapResolve (applicable : List Char → Bool)
    (rs : List (List Char × RRes)) : RRes :=
  match rs.find? (fun kr => applicable kr.1 && !(decide (kr.2 = .undef))) with
  | some kr => kr.2
  | none => .undef

theorem targetObjLoop_claim (applicable : List Char → Bool)
    (rss : List (List Char × RRes)) :
    targetObjLoop applicable rss = claimMapResolve applicable rss := by
  induction rss with
  | nil => simp [targetObjLoop, claimMapResolve, List.find?]
  | cons kr rest ih =>
    obtain ⟨k, r⟩ := kr
    by_cases ha : applicable k
    · by_cases hr : r = .undef
      · subst hr
        have hstep : targetObjLoop applicable ((k, RRes.undef) :: rest)
            = targetObjLoop applicable rest := by
          simp [targetObjLoop, ha]
        rw [hstep, ih]
        unfold claimMapResolve
        rw [List.find?]
        have : (applicable (k, RRes.undef).1
            && !(decide ((k, RRes.undef).2 = RRes.undef))) = false := by
          simp
        rw [this]
      · have hstep : targetObjLoop applicable ((k, r) :: rest) = r := by
          cases r with
          | ok u => simp [targetObjLoop, ha]
          | nul => simp [targetObjLoop, ha]
          | undef => exact absurd rfl hr
          | err e => simp [targetObjLoop, ha]
        rw [hstep]
        unfold claimMapResolve
        rw [List.find?]
        have : (applicable (k, r).1 && !(decide ((k, r).2 = RRes.undef))) = true := by
          simp [ha, hr]
        rw [this]
    · have hstep : targetObjLoop applicable ((k, r) :: rest)
          = targetObjLoop applicable rest := by
        simp [targetObjLoop, ha]
      rw [hstep, ih]
      unfold claimMapResolve
      rw [List.find?]
      have : (applicable (k, r).1 && !(decide ((k, r).2 = RRes.undef))) = false := by
        simp [ha]
      rw [this]

/-- C3: on a condition object the resolver first rejects any key accepted by
the numeric array-index predicate with `InvalidPackageConfig` — regardless
of whether that key could ever be selected — and otherwise scans the keys in
insertion order, returning the first applicable (`default` or in-conditions)
key's recursive result that is not `Undefined`, and `Undefined` when no key
applies. -/
theorem c3_map_target_resolution (rs : List Char → RRes)
    (isAI : List Char → Bool) (inConds : List Char → Bool)
    (kvs : List (List Char × Target)) :
    resolveTarget rs isAI inConds (.obj kvs)
      = (if kvs.any (fun kv => isAI kv.1) then RRes.err .invalidPackageConfig
         else claimMapResolve
           (fun k => decide (k = ("default".toList)) || inConds k)
           (kvs.map (fun kv => (kv.1, resolveTarget rs isAI inConds kv.2)))) := by
  rw [resolveTarget]
  by_cases h : kvs.any (fun kv => isAI kv.1)
  · rw [if_pos h, if_pos h]
  · rw [if_neg h, if_neg h]
    rw [targetObjLoop_claim]
    congr 1
    exact List.attach_map_val kvs
      (fun p => (p.1, resolveTarget rs isAI inConds p.2))

/-! ## String targets (`resolvePackageTargetString`, resolve.js:310-386) -/

/-- Global `'*'` substitution: `RegExpPrototypeSymbolReplace(patternRegEx,
s, () => sub)` with the global regex `/\*/g` replaces every occurrence. -/
def replaceStar (s sub : List Char) : List Char :=
  match s with
  | [] => []
  | c :: r => if c = '*' then sub ++ replaceStar r sub else c :: replaceStar r sub

/-- Split on the separators of the invalid-segment regexes, `'/'` and
`'\'`. -/
def splitSegs : List Char → List (List Char)
  | [] => [[]]
  | c :: rest =>
    if c = '/' ∨ c = '\\' then [] :: splitSegs rest
    else
      match splitSegs rest with
      | s :: ss => (c :: s) :: ss
      | [] => [[c]]

/-- Case-insensitive character comparison (the regexes carry the `/i`
flag). -/
def eqCI (a b : Char) : Bool := a = b || a.toLower = b.toLower

/-- Consume one dot form `(\.|%2e)` from the front of a segment. -/
def parseDotForm : List Char → Option (List Char)
  | '.' :: r => some r
  | '%' :: c1 :: c2 :: r =>
    if c1 = '2' && (c2 = 'e' || c2 = 'E') then some r else none
  | _ => none

def isDotSeg (s : List Char) : Bool := parseDotForm s = some []

def isDotDotSeg (s : List Char) : Bool :=
  match parseDotForm s with
  | some r => parseDotForm r = some []
  | none => false

/-- Consume one letter of the `node_modules` alternation: the literal letter
case-insensitively, or `%` followed by one of its two hex codes (hex letters
case-insensitive under `/i`). -/
def parseTok (lit : Char) (hexes : List (Char × Char)) (s : List Char) :
    Option (List Char) :=
  match s with
  | [] => none
  | c :: r =>
    if eqCI c lit then some r
    else if c = '%' then
      match r with
      | d1 :: d2 :: r2 =>
        if hexes.any (fun h => eqCI d1 h.1 && eqCI d2 h.2) then some r2 else none
      | _ => none
    else none

/-- The `node_modules` alternation of the invalid-segment regexes,
letter-by-letter with the hex codes written in the source. -/
def parseNodeModules (s : List Char) : Option (List Char) :=
  parseTok 'n' [('6', 'e'), ('4', 'e')] s >>=
  parseTok 'o' [('6', 'f'), ('4', 'f')] >>=
  parseTok 'd' [('6', '4'), ('4', '4')] >>=
  parseTok 'e' [('6', '5'), ('4', '5')] >>=
  parseTok '_' [('5', 'f')] >>=
  parseTok 'm' [('6', 'd'), ('4', 'd')] >>=
  parseTok 'o' [('6', 'f'), ('4', 'f')] >>=
  parseTok 'd' [('6', '4'), ('4', '4')] >>=
  parseTok 'u' [('7', '5'), ('5', '5')] >>=
  parseTok 'l' [('6', 'c'), ('4', 'c')] >>=
  parseTok 'e' [('6', '5'), ('4', '5')] >>=
  parseTok 's' [('7', '3'), ('5', '3')]

def isNodeModulesSeg (s : List Char) : Bool := parseNodeModules s = some []

def isBadSeg (s : List Char) : Bool :=
  isDotSeg s || isDotDotSeg s || isNodeModulesSeg s

/-- Model of `deprecatedInvalidSegmentRegEx` (resolve.js:293), the regex
whose match makes `resolvePackageTargetString` throw (a match of
`invalidSegmentRegEx` alone only emits a deprecation, which is not tracked
here).  Its mandatory delimiters `(^|\\|\/)...(\\|\/|$)` around a
separator-free core make a match equivalent to some full separator-split
segment being `.`, `..` or `node_modules` in literal or percent-encoded,
case-insensitive form. -/
def hasBadSeg (p : List Char) : Bool := (splitSegs p).any isBadSeg

/-- External URL operations used by the target resolver; the WHATWG `URL`
class lives in `internal/url`, outside this repository's sources.  `join`
models `new URL(rel, base)`, `parseAbs` models `new URL(abs)`,
`dirPathname` models `new URL('.', base).pathname`, `canParse` models
`URLCanParse`.  The constructor calls are total here because the resolver
only joins `./`-relative targets against `file:` URLs and re-parses
substituted `file:` hrefs. -/
structure UrlOps where
  join : List Char → JsUrl → JsUrl
  parseAbs : List Char → JsUrl
  dirPathname : JsUrl → List Char
  canParse : List Char → Bool

/-- Direct translation of `resolvePackageTargetString` (resolve.js:310-386).
`pkgRes` is the recursive `packageResolve` call made for internal (imports)
bare-specifier targets; `subpath` is the captured pattern middle (empty for
literal-key resolution). -/
def resolvePackageTargetString (u : UrlOps) (pkgRes : List Char → RRes)
    (target subpath matchKey : List Char) (packageJSONUrl : JsUrl)
    (pattern internal isPathMap : Bool) : RRes :=
  if subpath ≠ [] ∧ pattern = false ∧ target.getLast? ≠ some '/' then
    .err .invalidPackageTarget
  else if ¬ ("./".toList).isPrefixOf target = true then
    (if internal = true ∧ ¬ ("../".toList).isPrefixOf target = true
        ∧ ¬ ("/".toList).isPrefixOf target = true ∧ u.canParse target = false then
      pkgRes (if pattern then replaceStar target subpath else target ++ subpath)
    else .err .invalidPackageTarget)
  else if hasBadSeg (target.drop 2) = true then .err .invalidPackageTarget
  else
    let resolved := u.join target packageJSONUrl
    let packagePath := u.dirPathname packageJSONUrl
    if ¬ packagePath.isPrefixOf resolved.pathname = true then
      .err .invalidPackageTarget
    else if subpath = [] then .ok resolved
    else if hasBadSeg subpath = true then .err .invalidModuleSpecifier
    else if pattern then .ok (u.parseAbs (replaceStar resolved.href subpath))
    else .ok (u.join subpath resolved)

/-! ### Model of the WHATWG file-URL operations

Modelled from the spec: the `URL` class is an external collaborator
(`internal/url`); the spec relies on standard WHATWG behaviour, of which
this model keeps what `file:` URLs of POSIX paths exercise: `'/'`-separated
path segments, dropping the base URL's last segment on relative resolution,
`.`/`..` dot-segment normalization, and path termination at `'?'`/`'#'` on
parsing. -/

def splitOnSlash : List Char → List (List Char)
  | [] => [[]]
  | c :: rest =>
    if c = '/' then [] :: splitOnSlash rest
    else
      match splitOnSlash rest with
      | s :: ss => (c :: s) :: ss
      | [] => [[c]]

def segsOfPathname (p : List Char) : List (List Char) :=
  match p with
  | '/' :: r => splitOnSlash r
  | _ => splitOnSlash p

def serializePath (segs : List (List Char)) : List Char :=
  match segs with
  | [] => ['/']
  | _ => segs.foldl (fun acc s => acc ++ '/' :: s) []

/-- Dot-segment normalization of a path-segment list. -/
def normSegs (acc : List (List Char)) : List (List Char) → List (List Char)
  | [] => acc
  | s :: rest =>
    if s = ['.'] then normSegs acc rest
    else if s = ['.', '.'] then normSegs acc.dropLast rest
    else normSegs (acc ++ [s]) rest

def mkFileUrl (segs : List (List Char)) : JsUrl :=
  { protocol := "file:".toList
    pathname := serializePath segs
    search := []
    hash := []
    href := ("file://".toList) ++ serializePath segs }

/-- Modelled from the spec: `new URL(rel, base)` for a relative `rel`
against a `file:` base. -/
def modelJoin (rel : List Char) (base : JsUrl) : JsUrl :=
  mkFileUrl (normSegs (segsOfPathname base.pathname).dropLast (splitOnSlash rel))

/-- Modelled from the spec: `new URL('.', base).pathname`. -/
def modelDirPathname (base : JsUrl) : List Char :=
  serializePath (segsOfPathname base.pathname).dropLast ++ ['/']

/-- Modelled from the spec: `new URL(abs)` for an absolute `file://` URL
string; the path runs to the first `'?'` or `'#'`. -/
def modelParseAbs (s : List Char) : JsUrl :=
  let rest := s.drop 7
  let pathPart := rest.takeWhile (fun c => ¬ (c = '?' ∨ c = '#'))
  let tail := rest.dropWhile (fun c => ¬ (c = '?' ∨ c = '#'))
  let segs := normSegs [] (segsOfPathname pathPart)
  { protocol := "file:".toList
    pathname := serializePath segs
    search := tail.takeWhile (fun c => ¬ c = '#')
    hash := tail.dropWhile (fun c => ¬ c = '#')
    href := ("file://".toList) ++ serializePath segs
      ++ tail.takeWhile (fun c => ¬ c = '#') ++ tail.dropWhile (fun c => ¬ c = '#') }

def modelUrlOps : UrlOps :=
  { join := modelJoin
    parseAbs := modelParseAbs
    dirPathname := modelDirPathname
    canParse := fun _ => false }

/-- C4 (amended): for every string target of exports resolution
(`internal = false`), and for every `./`-headed string target of imports
resolution as well, whenever the URL obtained by resolving the target
against the `package.json` URL does not have the package directory's
pathname as a pathname head, `InvalidPackageTarget` is thrown; conversely
any successful result passed that containment check, and with an empty
capture the returned URL is exactly the checked URL, hence inside the
package directory.  Two exceptions, each exhibited in the counterexample:
in imports resolution a bare-specifier target (no `./`, `../` or `/` head
and not parseable as a URL) is routed into `packageResolve` with neither
the containment check nor `InvalidPackageTarget` (final conjunct below),
and the URL produced after pattern capture substitution can leave the
package directory. -/
theorem c4_target_boundary (u : UrlOps) (pkgRes : List Char → RRes)
    (target subpath matchKey : List Char) (pj : JsUrl)
    (pattern internal isPathMap : Bool) :
    (internal = false →
      ¬ (u.dirPathname pj).isPrefixOf (u.join target pj).pathname = true →
      resolvePackageTargetString u pkgRes target subpath matchKey pj
          pattern internal isPathMap = .err .invalidPackageTarget)
    ∧ (("./".toList).isPrefixOf target = true →
      ¬ (u.dirPathname pj).isPrefixOf (u.join target pj).pathname = true →
      resolvePackageTargetString u pkgRes target subpath matchKey pj
          pattern internal isPathMap = .err .invalidPackageTarget)
    ∧ (internal = false →
      ∀ v, resolvePackageTargetString u pkgRes target subpath matchKey pj
          pattern internal isPathMap = .ok v →
        (u.dirPathname pj).isPrefixOf (u.join target pj).pathname = true
          ∧ (subpath = [] → v = u.join target pj))
    ∧ (("./".toList).isPrefixOf target = true →
      ∀ v, resolvePackageTargetString u pkgRes target subpath matchKey pj
          pattern internal isPathMap = .ok v →
        (u.dirPathname pj).isPrefixOf (u.join target pj).pathname = true
          ∧ (subpath = [] → v = u.join target pj))
    ∧ (¬ (subpath ≠ [] ∧ pattern = false ∧ target.getLast? ≠ some '/') →
      ¬ ("./".toList).isPrefixOf target = true →
      internal = true →
      ¬ ("../".toList).isPrefixOf target = true →
      ¬ ("/".toList).isPrefixOf target = true →
      u.canParse target = false →
      resolvePackageTargetString u pkgRes target subpath matchKey pj
          pattern internal isPathMap
        = pkgRes (if pattern then replaceStar target subpath
                  else target ++ subpath)) := by
  refine ⟨?_, ?_, ?_, ?_, ?_⟩
  · intro hint hnc
    subst hint
    unfold resolvePackageTargetString
    by_cases h1 : subpath ≠ [] ∧ pattern = false ∧ target.getLast? ≠ some '/'
    · rw [if_pos h1]
    rw [if_neg h1]
    by_cases h2 : ¬ ("./".toList).isPrefixOf target = true
    · rw [if_pos h2]
      by_cases h3 : (false : Bool) = true ∧ ¬ ("../".toList).isPrefixOf target = true
          ∧ ¬ ("/".toList).isPrefixOf target = true ∧ u.canParse target = false
      · exact absurd h3.1 (by simp)
      · rw [if_neg h3]
    rw [if_neg h2]
    by_cases h3 : hasBadSeg (target.drop 2) = true
    · rw [if_pos h3]
    rw [if_neg h3]
    simp only
    rw [if_pos hnc]
  · intro hpfx hnc
    unfold resolvePackageTargetString
    by_cases h1 : subpath ≠ [] ∧ pattern = false ∧ target.getLast? ≠ some '/'
    · rw [if_pos h1]
    rw [if_neg h1]
    rw [if_neg (fun hh => hh hpfx)]
    by_cases h3 : hasBadSeg (target.drop 2) = true
    · rw [if_pos h3]
    rw [if_neg h3]
    simp only
    rw [if_pos hnc]
  · intro hint v hv
    subst hint
    unfold resolvePackageTargetString at hv
    by_cases h1 : subpath ≠ [] ∧ pattern = false ∧ target.getLast? ≠ some '/'
    · rw [if_pos h1] at hv
      exact absurd hv (by simp)
    rw [if_neg h1] at hv
    by_cases h2 : ¬ ("./".toList).isPrefixOf target = true
    · rw [if_pos h2] at hv
      by_cases h3 : (false : Bool) = true ∧ ¬ ("../".toList).isPrefixOf target = true
          ∧ ¬ ("/".toList).isPrefixOf target = true ∧ u.canParse target = false
      · exact absurd h3.1 (by simp)
      · rw [if_neg h3] at hv
        exact absurd hv (by simp)
    rw [if_neg h2] at hv
    by_cases h3 : hasBadSeg (target.drop 2) = true
    · rw [if_pos h3] at hv
      exact absurd hv (by simp)
    rw [if_neg h3] at hv
    simp only at hv
    by_cases h4 : ¬ (u.dirPathname pj).isPrefixOf (u.join target pj).pathname = true
    · rw [if_pos h4] at hv
      exact absurd hv (by simp)
    rw [if_neg h4] at hv
    push_neg at h4
    refine ⟨h4, ?_⟩
    intro hsub
    rw [if_pos hsub] at hv
    exact (RRes.ok.inj hv).symm
  · intro hpfx v hv
    unfold resolvePackageTargetString at hv
    by_cases h1 : subpath ≠ [] ∧ pattern = false ∧ target.getLast? ≠ some '/'
    · rw [if_pos h1] at hv
      exact absurd hv (by simp)
    rw [if_neg h1] at hv
    rw [if_neg (fun hh => hh hpfx)] at hv
    by_cases h3 : hasBadSeg (target.drop 2) = true
    · rw [if_pos h3] at hv
      exact absurd hv (by simp)
    rw [if_neg h3] at hv
    simp only at hv
    by_cases h4 : ¬ (u.dirPathname pj).isPrefixOf (u.join target pj).pathname = true
    · rw [if_pos h4] at hv
      exact absurd hv (by simp)
    rw [if_neg h4] at hv
    push_neg at h4
    refine ⟨h4, ?_⟩
    intro hsub
    rw [if_pos hsub] at hv
    exact (RRes.ok.inj hv).symm
  · intro h1 h2 hint hdd hs hcp
    subst hint
    unfold resolvePackageTargetString
    rw [if_neg h1, if_pos h2, if_pos ⟨rfl, hdd, hs, hcp⟩]

/-- The `package.json` URL of the counterexample package,
`file:///app/node_modules/pkg/package.json` in the URL model. -/
def cexPj : JsUrl :=
  { protocol := "file:".toList
    pathname := "/app/node_modules/pkg/package.json".toList
    search := []
    hash := []
    href := "file:///app/node_modules/pkg/package.json".toList }

/-- A URL outside the counterexample package directory, as
`packageResolve` would return for another package. -/
def cexOutUrl : JsUrl :=
  { protocol := "file:".toList
    pathname := "/app/node_modules/b".toList
    search := []
    hash := []
    href := "file:///app/node_modules/b".toList }

/-- C4 counterexample, both flanks of the original claim.  Exports: target
`./..*` matched by pattern key `./..*` with the (deprecated-form,
warning-only) capture `/b` succeeds with `file:///app/node_modules/b` —
outside the package directory `/app/node_modules/pkg/` — because the `..`
segment is produced only after `'*'` substitution into the already-checked
href, even though the pre-substitution URL passed the containment check.
Imports: the bare target `a/../../b` (`internal = true`) is routed straight
into `packageResolve` and succeeds with whatever that returns — here a URL
outside the package — with neither a containment check (the URL it would
resolve to against the `package.json` URL lies outside the package
directory) nor an `InvalidPackageTarget` throw. -/
theorem c4_counterexample :
    (resolvePackageTargetString modelUrlOps (fun _ => RRes.err .otherError)
        ("./..*".toList) ("/b".toList) ("./..*".toList) cexPj true false false
      = .ok cexOutUrl)
    ∧ ¬ (modelUrlOps.dirPathname cexPj).isPrefixOf
        ("/app/node_modules/b".toList) = true
    ∧ (modelUrlOps.dirPathname cexPj).isPrefixOf
        ((modelUrlOps.join ("./..*".toList) cexPj).pathname) = true
    ∧ (resolvePackageTargetString modelUrlOps (fun _ => RRes.ok cexOutUrl)
        ("a/../../b".toList) [] [] cexPj false true false
      = .ok cexOutUrl)
    ∧ ¬ (modelUrlOps.dirPathname cexPj).isPrefixOf
        ((modelUrlOps.join ("a/../../b".toList) cexPj).pathname) = true
    ∧ ¬ (modelUrlOps.dirPathname cexPj).isPrefixOf cexOutUrl.pathname = true := by
  refine ⟨by decide, by decide, by decide, by decide, by decide, by decide⟩

/-- Witness for `c4_target_boundary`: the exports target `../z` (no `./`
head) throws `InvalidPackageTarget` — its resolved URL indeed fails the
containment check — and the imports bare target `a/../../b` is routed to
`packageResolve`, discharging every hypothesis concretely. -/
theorem c4_target_boundary_witness :
    (resolvePackageTargetString modelUrlOps (fun _ => RRes.err .otherError)
        ("../z".toList) [] [] cexPj false false false
      = .err .invalidPackageTarget)
    ∧ (resolvePackageTargetString modelUrlOps (fun _ => RRes.ok cexOutUrl)
        ("a/../../b".toList) [] [] cexPj false true false
      = .ok cexOutUrl) := by
  constructor
  · exact (c4_target_boundary modelUrlOps (fun _ => RRes.err .otherError)
      ("../z".toList) [] [] cexPj false false false).1 rfl (by decide)
  · have h := (c4_target_boundary modelUrlOps (fun _ => RRes.ok cexOutUrl)
      ("a/../../b".toList) [] [] cexPj false true false).2.2.2.2
      (by decide) (by decide) rfl (by decide) (by decide) (by decide)
    rw [h]

/-! ## Exports resolver (`packageExportsResolve`, resolve.js:517-590) -/

/-- `key === '' || key[0] !== '.'` from `isConditionalExportsMainSugar`
(resolve.js:495). -/
def keyIsCond (k : List Char) : Bool := decide (k = []) || !(k.head? = some '.')

/-- Key scan of `isConditionalExportsMainSugar` (resolve.js:490-505): the
first key fixes the kind, a later key of the other kind throws
`InvalidPackageConfig`. -/
def sugarGo (b : Bool) : List (List Char × Target) → Except ErrKind Bool
  | [] => .ok b
  | (k, _) :: rest =>
    if keyIsCond k = b then sugarGo b rest else .error .invalidPackageConfig

/-- `isConditionalExportsMainSugar` (resolve.js:486-507): strings and arrays
are sugar; non-objects and `null` are not; an object's keys decide, all
condition keys or all subpath keys, never mixed. -/
def isCondSugar : Target → Except ErrKind Bool
  | .str _ => .ok true
  | .arr _ => .ok true
  | .null => .ok false
  | .other => .ok false
  | .obj [] => .ok false
  | .obj ((k, t) :: rest) => sugarGo (keyIsCond k) rest

/-- The exports value after the conditional-main-sugar wrap
`exports = { '.': exports }` (resolve.js:520-521). -/
def effectiveExports (t : Target) : Except ErrKind Target :=
  match isCondSugar t with
  | .error e => .error e
  | .ok b => .ok (if b then Target.obj [(['.'], t)] else t)

/-- `ObjectPrototypeHasOwnProperty(exports, packageSubpath)`: own-property
test on the (post-sugar) exports object.  Non-object shapes own none of the
dotted subpath keys the resolver queries. -/
def hasOwnT : Target → List Char → Bool
  | .obj kvs, k => kvs.any (fun kv => decide (kv.1 = k))
  | _, _ => false

/-- `exports[key]` lookup (keys of a parsed JSON object are unique). -/
def getOwnT : Target → List Char → Target
  | .obj kvs, k => ((kvs.find? (fun kv => decide (kv.1 = k))).map (fun kv => kv.2)).getD .null
  | _, _ => .null

/-- `ObjectGetOwnPropertyNames(exports)` in insertion order.  Non-object
shapes contribute no keys holding a `'*'`, so an empty list is equivalent
for the pattern scan. -/
def keysOfT : Target → List (List Char)
  | .obj kvs => kvs.map (fun kv => kv.1)
  | _ => []

/-- Body of `packageExportsResolve` after the sugar wrap: literal-key branch
(resolve.js:523-537), pattern scan (resolve.js:539-568), best-match
resolution and fall-through throw (resolve.js:570-589).  `rsF sub pat ipm`
stands for `resolvePackageTargetString` with `subpath := sub`,
`pattern := pat`, `isPathMap := ipm` and the ambient `packageJSONUrl`,
`base` and conditions fixed; the trailing-slash pattern deprecation
(DEP0155, resolve.js:554-556) is emission-only and untracked. -/
def packageExportsCore (rsF : List Char → Bool → Bool → List Char → RRes)
    (isAI : List Char → Bool) (inConds : List Char → Bool)
    (exp : Target) (packageSubpath : List Char) : RRes :=
  if hasOwnT exp packageSubpath = true ∧ packageSubpath.contains '*' = false
      ∧ packageSubpath.getLast? ≠ some '/' then
    match resolveTarget (rsF [] false false) isAI inConds
        (getOwnT exp packageSubpath) with
    | .ok v => .ok v
    | .nul => .err .packageSubpathNotExported
    | .undef => .err .packageSubpathNotExported
    | .err e => .err e
  else
    let best := patternLoop packageSubpath (keysOfT exp) ([], [])
    if best.1 ≠ [] then
      match resolveTarget
          (rsF best.2 true (decide (packageSubpath.getLast? = some '/')))
          isAI inConds (getOwnT exp best.1) with
      | .ok v => .ok v
      | .nul => .err .packageSubpathNotExported
      | .undef => .err .packageSubpathNotExported
      | .err e => .err e
    else .err .packageSubpathNotExported

/-- `packageExportsResolve` (resolve.js:517-590): sugar-normalize
`config.exports`, then run the core. -/
def packageExportsResolve (rsF : List Char → Bool → Bool → List Char → RRes)
    (isAI : List Char → Bool) (inConds : List Char → Bool)
    (exportsV : Target) (packageSubpath : List Char) : RRes :=
  match effectiveExports exportsV with
  | .error e => .err e
  | .ok exp => packageExportsCore rsF isAI inConds exp packageSubpath

/-- C5: in exports resolution a literal key equal to the subpath takes
priority over the pattern scan whenever the subpath holds no `'*'` and does
not end in `'/'`, and its target is resolved with pattern mode off and an
empty capture (`rsF [] false false`); a `Null` or `Undefined` outcome of
that resolution, and likewise the absence of both a literal and a matching
pattern key, surface as `PackageSubpathNotExported`. -/
theorem c5_literal_key_priority (rsF : List Char → Bool → Bool → List Char → RRes)
    (isAI : List Char → Bool) (inConds : List Char → Bool)
    (exportsV exp : Target) (ps : List Char)
    (hexp : effectiveExports exportsV = .ok exp) :
    (hasOwnT exp ps = true → ps.contains '*' = false → ps.getLast? ≠ some '/' →
      packageExportsResolve rsF isAI inConds exportsV ps
        = (match resolveTarget (rsF [] false false) isAI inConds (getOwnT exp ps) with
           | .ok v => .ok v
           | .nul => .err .packageSubpathNotExported
           | .undef => .err .packageSubpathNotExported
           | .err e => .err e))
    ∧ (¬ (hasOwnT exp ps = true ∧ ps.contains '*' = false ∧ ps.getLast? ≠ some '/') →
        bestPatternKey ps (keysOfT exp) = [] →
        packageExportsResolve rsF isAI inConds exportsV ps
          = .err .packageSubpathNotExported) := by
  constructor
  · intro h1 h2 h3
    unfold packageExportsResolve
    rw [hexp]
    show packageExportsCore rsF isAI inConds exp ps = _
    unfold packageExportsCore
    rw [if_pos ⟨h1, h2, h3⟩]
  · intro hnl hnp
    unfold packageExportsResolve
    rw [hexp]
    show packageExportsCore rsF isAI inConds exp ps = _
    unfold packageExportsCore
    rw [if_neg hnl]
    simp only
    rw [if_neg (by simpa [bestPatternKey] using hnp)]

/-- Witness for `c5_literal_key_priority`: exports `{ "./x": "./x.js" }`
with subpath `./x` resolves the literal target (both for a string resolver
that succeeds and via the null surfacing); subpath `./y` matches nothing and
throws `PackageSubpathNotExported`. -/
theorem c5_literal_key_priority_witness :
    (packageExportsResolve (fun _ _ _ _ => RRes.nul) (fun _ => false)
        (fun _ => false)
        (Target.obj [(("./x".toList), Target.str ("./x.js".toList))])
        ("./x".toList)
      = .err .packageSubpathNotExported)
    ∧ (packageExportsResolve (fun _ _ _ _ => RRes.nul) (fun _ => false)
        (fun _ => false)
        (Target.obj [(("./x".toList), Target.str ("./x.js".toList))])
        ("./y".toList)
      = .err .packageSubpathNotExported) := by
  constructor
  · have h := (c5_literal_key_priority (fun _ _ _ _ => RRes.nul) (fun _ => false)
      (fun _ => false)
      (Target.obj [(("./x".toList), Target.str ("./x.js".toList))])
      (Target.obj [(("./x".toList), Target.str ("./x.js".toList))])
      ("./x".toList) rfl).1 (by decide) (by decide) (by decide)
    rw [h]
    simp [getOwnT, resolveTarget]
  · have h := (c5_literal_key_priority (fun _ _ _ _ => RRes.nul) (fun _ => false)
      (fun _ => false)
      (Target.obj [(("./x".toList), Target.str ("./x.js".toList))])
      (Target.obj [(("./x".toList), Target.str ("./x.js".toList))])
      ("./y".toList) rfl).2 (by decide) (by decide)
    exact h

/-! ## Package resolution walk (`packageResolve`, resolve.js:725-781)

The walk is modelled over `'/'`-segment lists of the candidate
`package.json` path.  `internalModuleStat` (an `fs` binding, external) is
the `stat` oracle on the candidate's parent directory — the source passes
`packageJSONPath.slice(0, length - 13)`, the path with its final
`/package.json` (13 characters) removed, which is the segment list without
its last entry; `toNamespacedPath` is the identity on POSIX paths.  The URL
arithmetic of `new URL('../../../node_modules/…', packageJSONUrl)` is
modelled from the spec by WHATWG dot-segment processing (`normSegs`). -/

def nmSeg : List Char := "node_modules".toList

def pjSeg : List Char := "package.json".toList

/-- Serialized length of a segment-list path: one `'/'` plus the segment, per
segment — the `packageJSONPath.length` the loop guard compares. -/
def serLen (p : List (List Char)) : Nat := (p.map (fun s => s.length + 1)).sum

/-- Drop the last `n` segments (saturating), the net effect of `n` `..`
steps. -/
def popN (n : Nat) (p : List (List Char)) : List (List Char) :=
  p.take (p.length - n)

/-- The candidate `package.json` path grown from directory prefix `X`:
`new URL('./node_modules/' + packageName + '/package.json', …)` with
`nameSegs` the `'/'`-segments of `packageName`. -/
def nmCandidate (nameSegs : List (List Char)) (X : List (List Char)) :
    List (List Char) :=
  normSegs X (nmSeg :: nameSegs ++ [pjSeg])

/-- Relative URL of the retry step (resolve.js:753-755): three `..` segments
for unscoped names, four for scoped ones, then
`node_modules/<name>/package.json`. -/
def nmRel (isScoped : Bool) (nameSegs : List (List Char)) :
    List (List Char) :=
  List.replicate (if isScoped then 4 else 3) ['.', '.']
    ++ nmSeg :: nameSegs ++ [pjSeg]

/-- One retry rewrite: `new URL(rel, packageJSONUrl)` drops the base URL's
last segment and processes the relative segments. -/
def nmStep (isScoped : Bool) (nameSegs : List (List Char))
    (p : List (List Char)) : List (List Char) :=
  normSegs p.dropLast (nmRel isScoped nameSegs)

/-- Net segment drop of one retry on the directory prefix. -/
def stepDrop (isScoped : Bool) (nameSegs : List (List Char)) : Nat :=
  (if isScoped then 4 else 3) - 1 - (normSegs [] nameSegs).length

inductive WalkRes where
  | found (p : List (List Char))
  | notFound
deriving DecidableEq

/-- The `do … while (packageJSONPath.length !== lastPath.length)` loop of
`packageResolve` (resolve.js:747-780), fuelled: a hit of the parent
directory (`stat = 1`, a directory) is a package match — the subsequent
dispatch through the package-json reader to `packageExportsResolve`,
`legacyMainResolve` or direct subpath joining is outside this loop;
otherwise the candidate is rewritten and the loop exits with
`ERR_MODULE_NOT_FOUND` (`notFound`) exactly when the serialized path length
did not change. -/
def nmWalkF (stat : List (List Char) → Int) (isScoped : Bool)
    (nameSegs : List (List Char)) : Nat → List (List Char) → Option WalkRes
  | 0, _ => none
  | fuel + 1, p =>
    if stat p.dropLast = 1 then some (.found p)
    else
      let p2 := nmStep isScoped nameSegs p
      if serLen p2 = serLen p then some .notFound
      else nmWalkF stat isScoped nameSegs fuel p2

theorem normSegs_append (acc : List (List Char)) (xs ys : List (List Char)) :
    normSegs acc (xs ++ ys) = normSegs (normSegs acc xs) ys := by
  induction xs generalizing acc with
  | nil => rfl
  | cons s rest ih =>
    by_cases h1 : s = ['.']
    · simp only [List.cons_append, normSegs, if_pos h1]
      exact ih acc
    by_cases h2 : s = ['.', '.']
    · simp only [List.cons_append, normSegs, if_neg h1, if_pos h2]
      exact ih acc.dropLast
    · simp only [List.cons_append, normSegs, if_neg h1, if_neg h2]
      exact ih (acc ++ [s])

theorem normSegs_replicate_dotdot (k : Nat) :
    ∀ acc, normSegs acc (List.replicate k ['.', '.']) = popN k acc := by
  induction k with
  | zero =>
    intro acc
    simp [normSegs, popN]
  | succ n ih =>
    intro acc
    rw [List.replicate_succ]
    show normSegs acc.dropLast (List.replicate n ['.', '.']) = _
    rw [ih acc.dropLast]
    unfold popN
    rw [List.dropLast_eq_take, List.take_take, List.length_take]
    congr 1
    omega

theorem normSegs_nodots (acc : List (List Char)) (xs : List (List Char))
    (h : ∀ s ∈ xs, s ≠ ['.'] ∧ s ≠ ['.', '.']) :
    normSegs acc xs = acc ++ xs := by
  induction xs generalizing acc with
  | nil => simp [normSegs]
  | cons s rest ih =>
    obtain ⟨h1, h2⟩ := h s (List.mem_cons_self _ _)
    simp only [normSegs, if_neg h1, if_neg h2]
    rw [ih (acc ++ [s]) (fun s2 hs2 => h s2 (List.mem_cons_of_mem _ hs2))]
    simp

theorem serLen_append (X Y : List (List Char)) :
    serLen (X ++ Y) = serLen X + serLen Y := by
  simp [serLen]

theorem popN_popN (a b : Nat) (X : List (List Char)) :
    popN a (popN b X) = popN (a + b) X := by
  unfold popN
  rw [List.take_take, List.length_take]
  congr 1
  omega

theorem popN_eq_self_iff {d : Nat} (hd : 1 ≤ d) (X : List (List Char)) :
    popN d X = X ↔ X = [] := by
  constructor
  · intro h
    have hl := congrArg List.length h
    rw [popN, List.length_take] at hl
    have : X.length = 0 := by omega
    exact List.length_eq_zero.mp this
  · intro h
    subst h
    simp [popN]

theorem serLen_popN_le (d : Nat) (X : List (List Char)) :
    serLen (popN d X) ≤ serLen X := by
  conv_rhs => rw [← List.take_append_drop (X.length - d) X]
  rw [serLen_append]
  unfold popN
  omega

theorem serLen_popN_eq_iff {d : Nat} (hd : 1 ≤ d) (X : List (List Char)) :
    serLen (popN d X) = serLen X ↔ X = [] := by
  constructor
  · intro h
    by_contra hne
    have hlen : X.length ≠ 0 := fun h0 => hne (List.length_eq_zero.mp h0)
    have hsplit := congrArg serLen (List.take_append_drop (X.length - d) X)
    rw [serLen_append] at hsplit
    have hdrop : serLen (X.drop (X.length - d)) = 0 := by
      unfold popN at h
      omega
    have hdlen : (X.drop (X.length - d)).length ≠ 0 := by
      rw [List.length_drop]
      omega
    rcases hX : X.drop (X.length - d) with _ | ⟨s, rest⟩
    · rw [hX] at hdlen
      simp at hdlen
    · rw [hX] at hdrop
      simp [serLen] at hdrop
  · intro h
    subst h
    simp [popN]

theorem nmSeg_ne_dot : nmSeg ≠ ['.'] := by decide

theorem nmSeg_ne_dotdot : nmSeg ≠ ['.', '.'] := by decide

theorem pjSeg_ne_dot : pjSeg ≠ ['.'] := by decide

theorem pjSeg_ne_dotdot : pjSeg ≠ ['.', '.'] := by decide

/-- Shape of every walk candidate: directory prefix, `node_modules`, the
dot-processed package-name segments, `package.json`.  `parsePackageName`
guarantees the name's first segment is never a dot segment (unscoped names
cannot start with `.`, scoped ones start with `@`), so only the second
segment of a scoped name can be `.` or `..`. -/
theorem nmCandidate_shape (nameSegs : List (List Char))
    (hlen : nameSegs.length = 1 ∨ nameSegs.length = 2)
    (hhd : ∀ a, nameSegs.head? = some a → a ≠ ['.'] ∧ a ≠ ['.', '.']) :
    (∀ X, nmCandidate nameSegs X
        = X ++ [nmSeg] ++ normSegs [] nameSegs ++ [pjSeg])
    ∧ (normSegs [] nameSegs).length ≤ nameSegs.length := by
  rcases nameSegs with _ | ⟨a, rest⟩
  · simp at hlen
  obtain ⟨ha1, ha2⟩ := hhd a rfl
  rcases rest with _ | ⟨b, rest2⟩
  · have hns : normSegs [] [a] = [a] := by
      have := normSegs_nodots [] [a] (by
        intro s hs
        simp at hs
        subst hs
        exact ⟨ha1, ha2⟩)
      simpa using this
    constructor
    · intro X
      unfold nmCandidate
      have := normSegs_nodots X [nmSeg, a, pjSeg] (by
        intro s hs
        simp at hs
        rcases hs with h | h | h <;> subst h
        · exact ⟨nmSeg_ne_dot, nmSeg_ne_dotdot⟩
        · exact ⟨ha1, ha2⟩
        · exact ⟨pjSeg_ne_dot, pjSeg_ne_dotdot⟩)
      rw [show (nmSeg :: [a] ++ [pjSeg]) = [nmSeg, a, pjSeg] by simp, this, hns]
      simp
    · rw [hns]
  · have hr2 : rest2 = [] := by
      rcases hlen with h | h <;> simp at h
      exact h
    subst hr2
    by_cases hb1 : b = ['.']
    · subst hb1
      have hns : normSegs [] [a, ['.']] = [a] := by
        simp [normSegs, ha1, ha2]
      constructor
      · intro X
        unfold nmCandidate
        rw [show (nmSeg :: [a, ['.']] ++ [pjSeg]) = [nmSeg, a, ['.'], pjSeg] by simp]
        rw [hns]
        simp [normSegs, nmSeg_ne_dot, nmSeg_ne_dotdot, ha1, ha2,
          pjSeg_ne_dot, pjSeg_ne_dotdot]
      · rw [hns]
        simp
    by_cases hb2 : b = ['.', '.']
    · subst hb2
      have hns : normSegs [] [a, ['.', '.']] = ([] : List (List Char)) := by
        simp [normSegs, ha1, ha2]
      constructor
      · intro X
        unfold nmCandidate
        rw [show (nmSeg :: [a, ['.', '.']] ++ [pjSeg])
          = [nmSeg, a, ['.', '.'], pjSeg] by simp]
        rw [hns]
        have h1 : normSegs X ([nmSeg, a, ['.', '.'], pjSeg])
            = normSegs ((X ++ [nmSeg] ++ [a]).dropLast) [pjSeg] := by
          simp [normSegs, nmSeg_ne_dot, nmSeg_ne_dotdot, ha1, ha2]
        rw [h1]
        have h2 : (X ++ [nmSeg] ++ [a]).dropLast = X ++ [nmSeg] := by
          rw [show X ++ [nmSeg] ++ [a] = (X ++ [nmSeg]) ++ [a] by simp,
            List.dropLast_concat]
        rw [h2]
        simp [normSegs, pjSeg_ne_dot, pjSeg_ne_dotdot]
      · rw [hns]
        simp
    · have hns : normSegs [] [a, b] = [a, b] := by
        have := normSegs_nodots [] [a, b] (by
          intro s hs
          simp at hs
          rcases hs with h | h <;> subst h
          · exact ⟨ha1, ha2⟩
          · exact ⟨hb1, hb2⟩)
        simpa using this
      constructor
      · intro X
        unfold nmCandidate
        rw [show (nmSeg :: [a, b] ++ [pjSeg]) = [nmSeg, a, b, pjSeg] by simp]
        rw [hns]
        have := normSegs_nodots X [nmSeg, a, b, pjSeg] (by
          intro s hs
          simp at hs
          rcases hs with h | h | h | h <;> subst h
          · exact ⟨nmSeg_ne_dot, nmSeg_ne_dotdot⟩
          · exact ⟨ha1, ha2⟩
          · exact ⟨hb1, hb2⟩
          · exact ⟨pjSeg_ne_dot, pjSeg_ne_dotdot⟩)
        rw [this]
        simp
      · rw [hns]

/-- One retry rewrites the candidate three (unscoped) or four (scoped)
directories up: on candidates of walk shape it pops `stepDrop` segments of
the directory prefix. -/
theorem nmStep_candidate (isScoped : Bool) (nameSegs : List (List Char))
    (hlen : nameSegs.length = (if isScoped then 2 else 1))
    (hhd : ∀ a, nameSegs.head? = some a → a ≠ ['.'] ∧ a ≠ ['.', '.'])
    (X : List (List Char)) :
    nmStep isScoped nameSegs (nmCandidate nameSegs X)
      = nmCandidate nameSegs (popN (stepDrop isScoped nameSegs) X) := by
  have hlen2 : nameSegs.length = 1 ∨ nameSegs.length = 2 := by
    cases isScoped <;> simp_all
  obtain ⟨hshape, hns2len⟩ := nmCandidate_shape nameSegs hlen2 hhd
  have hk : (if isScoped then 4 else 3) = nameSegs.length + 2 := by
    cases isScoped <;> simp_all
  unfold nmStep nmRel
  rw [hshape X]
  have hdl : (X ++ [nmSeg] ++ normSegs [] nameSegs ++ [pjSeg]).dropLast
      = X ++ [nmSeg] ++ normSegs [] nameSegs := by
    rw [show X ++ [nmSeg] ++ normSegs [] nameSegs ++ [pjSeg]
      = (X ++ [nmSeg] ++ normSegs [] nameSegs) ++ [pjSeg] by simp,
      List.dropLast_concat]
  rw [hdl]
  simp only [normSegs_append, normSegs_replicate_dotdot]
  have hpop : popN (if isScoped then 4 else 3)
      (X ++ [nmSeg] ++ normSegs [] nameSegs)
      = popN (stepDrop isScoped nameSegs) X := by
    unfold popN stepDrop
    rw [show X ++ [nmSeg] ++ normSegs [] nameSegs
      = X ++ ([nmSeg] ++ normSegs [] nameSegs) by simp]
    rw [List.take_append_eq_append_take]
    have h1 : (X ++ ([nmSeg] ++ normSegs [] nameSegs)).length
        = X.length + 1 + (normSegs [] nameSegs).length := by
      simp only [List.length_append, List.length_cons, List.length_nil]
      omega
    rw [h1]
    have h2 : X.length + 1 + (normSegs [] nameSegs).length
        - (if isScoped then 4 else 3)
        = X.length - ((if isScoped then 4 else 3) - 1
            - (normSegs [] nameSegs).length) := by omega
    rw [h2]
    have h3 : X.length - ((if isScoped then 4 else 3) - 1
        - (normSegs [] nameSegs).length) - X.length = 0 := by omega
    rw [h3]
    simp
  rw [hpop]
  unfold nmCandidate
  simp only [normSegs_append]

/-- Larger fuel preserves a finished walk. -/
theorem nmWalkF_mono (stat : List (List Char) → Int) (isScoped : Bool)
    (nameSegs : List (List Char)) :
    ∀ f1 f2 p r, f1 ≤ f2 →
      nmWalkF stat isScoped nameSegs f1 p = some r →
      nmWalkF stat isScoped nameSegs f2 p = some r := by
  intro f1
  induction f1 with
  | zero =>
    intro f2 p r _ h
    simp [nmWalkF] at h
  | succ n ih =>
    intro f2 p r hle h
    rcases f2 with _ | m
    · omega
    unfold nmWalkF at h ⊢
    by_cases h1 : stat p.dropLast = 1
    · rw [if_pos h1] at h ⊢
      exact h
    rw [if_neg h1] at h ⊢
    simp only at h ⊢
    by_cases h2 : serLen (nmStep isScoped nameSegs p) = serLen p
    · rw [if_pos h2] at h ⊢
      exact h
    · rw [if_neg h2] at h ⊢
      exact ih m _ r (by omega) h

theorem popN_zero (X : List (List Char)) : popN 0 X = X := by
  simp [popN]

theorem popN_nil (d : Nat) : popN d [] = [] := by
  simp [popN]

theorem stepDrop_pos (isScoped : Bool) (nameSegs : List (List Char))
    (hlen : nameSegs.length = (if isScoped then 2 else 1))
    (hhd : ∀ a, nameSegs.head? = some a → a ≠ ['.'] ∧ a ≠ ['.', '.']) :
    1 ≤ stepDrop isScoped nameSegs := by
  have hlen2 : nameSegs.length = 1 ∨ nameSegs.length = 2 := by
    cases isScoped <;> simp_all
  obtain ⟨-, hns2len⟩ := nmCandidate_shape nameSegs hlen2 hhd
  unfold stepDrop
  cases isScoped <;> simp_all <;> omega

theorem serLen_cand (nameSegs : List (List Char))
    (hlen2 : nameSegs.length = 1 ∨ nameSegs.length = 2)
    (hhd : ∀ a, nameSegs.head? = some a → a ≠ ['.'] ∧ a ≠ ['.', '.'])
    (Y : List (List Char)) :
    serLen (nmCandidate nameSegs Y)
      = serLen Y + serLen ([nmSeg] ++ normSegs [] nameSegs ++ [pjSeg]) := by
  obtain ⟨hshape, -⟩ := nmCandidate_shape nameSegs hlen2 hhd
  rw [hshape Y]
  simp [serLen]

theorem nmCandidate_inj (nameSegs : List (List Char))
    (hlen2 : nameSegs.length = 1 ∨ nameSegs.length = 2)
    (hhd : ∀ a, nameSegs.head? = some a → a ≠ ['.'] ∧ a ≠ ['.', '.'])
    {X1 X2 : List (List Char)}
    (h : nmCandidate nameSegs X1 = nmCandidate nameSegs X2) : X1 = X2 := by
  obtain ⟨hshape, -⟩ := nmCandidate_shape nameSegs hlen2 hhd
  rw [hshape X1, hshape X2] at h
  have h2 : X1 ++ ([nmSeg] ++ normSegs [] nameSegs ++ [pjSeg])
      = X2 ++ ([nmSeg] ++ normSegs [] nameSegs ++ [pjSeg]) := by
    rw [show X1 ++ ([nmSeg] ++ normSegs [] nameSegs ++ [pjSeg])
      = X1 ++ [nmSeg] ++ normSegs [] nameSegs ++ [pjSeg] by simp,
      show X2 ++ ([nmSeg] ++ normSegs [] nameSegs ++ [pjSeg])
      = X2 ++ [nmSeg] ++ normSegs [] nameSegs ++ [pjSeg] by simp, h]
  have hl : X1.length = X2.length := by
    have := congrArg List.length h2
    simp at this
    omega
  exact List.append_inj_left h2 hl

/-- Core induction for C6: the fuelled walk finishes within `|X| + 1`
iterations, and exits `notFound` exactly when every candidate down the
fixed-point chain misses a package directory. -/
theorem nmWalk_spec (stat : List (List Char) → Int) (isScoped : Bool)
    (nameSegs : List (List Char))
    (hlen : nameSegs.length = (if isScoped then 2 else 1))
    (hhd : ∀ a, nameSegs.head? = some a → a ≠ ['.'] ∧ a ≠ ['.', '.']) :
    ∀ m X, X.length = m →
      (∃ r, nmWalkF stat isScoped nameSegs (X.length + 1)
          (nmCandidate nameSegs X) = some r)
      ∧ (nmWalkF stat isScoped nameSegs (X.length + 1)
            (nmCandidate nameSegs X) = some WalkRes.notFound
          ↔ ∀ n, stat (nmCandidate nameSegs
              (popN (stepDrop isScoped nameSegs * n) X)).dropLast ≠ 1) := by
  have hlen2 : nameSegs.length = 1 ∨ nameSegs.length = 2 := by
    cases isScoped <;> simp_all
  have hd : 1 ≤ stepDrop isScoped nameSegs := stepDrop_pos isScoped nameSegs hlen hhd
  intro m
  induction m using Nat.strong_induction_on with
  | _ m ih =>
    intro X hXlen
    have hstep := nmStep_candidate isScoped nameSegs hlen hhd X
    by_cases h1 : stat (nmCandidate nameSegs X).dropLast = 1
    · have hrun : nmWalkF stat isScoped nameSegs (X.length + 1)
          (nmCandidate nameSegs X) = some (.found (nmCandidate nameSegs X)) := by
        rw [nmWalkF, if_pos h1]
      refine ⟨⟨_, hrun⟩, ?_, ?_⟩
      · intro h
        rw [hrun] at h
        exact absurd (Option.some.inj h) (by simp)
      · intro hall
        have := hall 0
        rw [Nat.mul_zero, popN_zero] at this
        exact absurd h1 this
    · by_cases hX : X = []
      · subst hX
        have hstep2 : nmStep isScoped nameSegs (nmCandidate nameSegs [])
            = nmCandidate nameSegs [] := by
          rw [hstep, popN_nil]
        have hrun : nmWalkF stat isScoped nameSegs 1 (nmCandidate nameSegs [])
            = some .notFound := by
          rw [nmWalkF, if_neg h1]
          simp only
          rw [hstep2, if_pos rfl]
        refine ⟨⟨_, hrun⟩, ?_, ?_⟩
        · intro h n
          rw [popN_nil]
          exact h1
        · intro hall
          exact hrun
      · have hXpos : 1 ≤ X.length := by
          rcases X with _ | _
          · exact absurd rfl hX
          · simp
        have hpoplt : (popN (stepDrop isScoped nameSegs) X).length < X.length := by
          unfold popN
          rw [List.length_take]
          omega
        have hserne : ¬ serLen (nmStep isScoped nameSegs (nmCandidate nameSegs X))
            = serLen (nmCandidate nameSegs X) := by
          rw [hstep, serLen_cand nameSegs hlen2 hhd, serLen_cand nameSegs hlen2 hhd]
          have := (serLen_popN_eq_iff hd X).not.mpr hX
          omega
        have hwalkeq : nmWalkF stat isScoped nameSegs (X.length + 1)
            (nmCandidate nameSegs X)
            = nmWalkF stat isScoped nameSegs X.length
              (nmCandidate nameSegs (popN (stepDrop isScoped nameSegs) X)) := by
          conv_lhs => rw [nmWalkF]
          rw [if_neg h1]
          simp only
          rw [if_neg hserne, hstep]
        obtain ⟨⟨r, hr⟩, hiff⟩ := ih (popN (stepDrop isScoped nameSegs) X).length
          (by omega) (popN (stepDrop isScoped nameSegs) X) rfl
        have hr2 : nmWalkF stat isScoped nameSegs X.length
            (nmCandidate nameSegs (popN (stepDrop isScoped nameSegs) X))
            = some r :=
          nmWalkF_mono stat isScoped nameSegs _ _ _ r (by omega) hr
        refine ⟨⟨r, by rw [hwalkeq]; exact hr2⟩, ?_, ?_⟩
        · intro h n
          have hrn : r = WalkRes.notFound := by
            rw [hwalkeq, hr2] at h
            exact Option.some.inj h
          have hall2 := hiff.mp (by rw [← hrn]; exact hr)
          rcases n with _ | n2
          · rw [Nat.mul_zero, popN_zero]
            exact h1
          · have := hall2 n2
            rw [popN_popN] at this
            have harith : stepDrop isScoped nameSegs * n2 + stepDrop isScoped nameSegs
                = stepDrop isScoped nameSegs * (n2 + 1) := by ring
            rw [harith] at this
            exact this
        · intro hall
          rw [hwalkeq, hr2]
          have : r = WalkRes.notFound := by
            have hall2 : ∀ n, stat (nmCandidate nameSegs
                (popN (stepDrop isScoped nameSegs * n)
                  (popN (stepDrop isScoped nameSegs) X))).dropLast ≠ 1 := by
              intro n
              rw [popN_popN]
              have harith : stepDrop isScoped nameSegs * n + stepDrop isScoped nameSegs
                  = stepDrop isScoped nameSegs * (n + 1) := by ring
              rw [harith]
              exact hall (n + 1)
            have := hiff.mpr hall2
            rw [hr] at this
            exact (Option.some.inj this)
          rw [this]

/-- C6: for every bare-specifier package name (one `'/'`-segment unscoped,
two scoped, the first never a dot segment — guaranteed by
`parsePackageName`'s leading-dot rejection and `@` scoping) and every
starting directory prefix `X`, the node_modules walk terminates within one
iteration per prefix segment plus one; each retry rewrites the candidate
three (unscoped) or four (scoped) directories up, popping `stepDrop`
segments of the prefix; the loop's length-unchanged guard is equivalent to
the candidate being truly unchanged, which happens exactly at the
filesystem root (`X = []`); and the walk exits with `ModuleNotFound`
precisely when every candidate down the chain to the fixed point misses a
package directory. -/
theorem c6_node_modules_walk (stat : List (List Char) → Int)
    (isScoped : Bool) (nameSegs : List (List Char)) (X : List (List Char))
    (hlen : nameSegs.length = (if isScoped then 2 else 1))
    (hhd : ∀ a, nameSegs.head? = some a → a ≠ ['.'] ∧ a ≠ ['.', '.']) :
    (nmStep isScoped nameSegs (nmCandidate nameSegs X)
        = nmCandidate nameSegs (popN (stepDrop isScoped nameSegs) X))
    ∧ (serLen (nmStep isScoped nameSegs (nmCandidate nameSegs X))
          = serLen (nmCandidate nameSegs X)
        ↔ nmStep isScoped nameSegs (nmCandidate nameSegs X)
          = nmCandidate nameSegs X)
    ∧ (nmStep isScoped nameSegs (nmCandidate nameSegs X)
          = nmCandidate nameSegs X ↔ X = [])
    ∧ (∃ r, nmWalkF stat isScoped nameSegs (X.length + 1)
        (nmCandidate nameSegs X) = some r)
    ∧ (nmWalkF stat isScoped nameSegs (X.length + 1)
          (nmCandidate nameSegs X) = some WalkRes.notFound
        ↔ ∀ n, stat (nmCandidate nameSegs
            (popN (stepDrop isScoped nameSegs * n) X)).dropLast ≠ 1) := by
  have hlen2 : nameSegs.length = 1 ∨ nameSegs.length = 2 := by
    cases isScoped <;> simp_all
  have hd := stepDrop_pos isScoped nameSegs hlen hhd
  have hstep := nmStep_candidate isScoped nameSegs hlen hhd X
  obtain ⟨hterm, hiff⟩ := nmWalk_spec stat isScoped nameSegs hlen hhd X.length X rfl
  refine ⟨hstep, ?_, ?_, hterm, hiff⟩
  · rw [hstep]
    constructor
    · intro h
      rw [serLen_cand _ hlen2 hhd, serLen_cand _ hlen2 hhd] at h
      have h2 : serLen (popN (stepDrop isScoped nameSegs) X) = serLen X := by omega
      have hXnil := (serLen_popN_eq_iff hd X).mp h2
      rw [hXnil, popN_nil]
    · intro h
      rw [h]
  · rw [hstep]
    constructor
    · intro h
      have h2 := nmCandidate_inj nameSegs hlen2 hhd h
      exact (popN_eq_self_iff hd X).mp h2
    · intro h
      subst h
      rw [popN_nil]

/-- Witness for `c6_node_modules_walk`: the unscoped name `pkg` walked from
the directory prefix `/app` under an all-missing stat oracle reaches the
root and exits with `ModuleNotFound` within two iterations. -/
theorem c6_node_modules_walk_witness :
    nmWalkF (fun _ => -2) false [("pkg".toList)]
        ([("app".toList)].length + 1)
        (nmCandidate [("pkg".toList)] [("app".toList)])
      = some WalkRes.notFound := by
  have h := c6_node_modules_walk (fun _ => -2) false [("pkg".toList)]
    [("app".toList)] (by decide)
    (by
      intro a ha
      simp at ha
      subst ha
      exact ⟨by decide, by decide⟩)
  exact h.2.2.2.2.mpr (fun n => by norm_num)

/-! ## Finalization (`finalizeResolution`, resolve.js:205-240) -/

/-- `encodedSepRegEx = /%2F|%5C/i` (resolve.js:198) as a substring test
(`%` literal, digit literal, hex letter case-insensitive). -/
def containsEncodedSep : List Char → Bool
  | '%' :: c1 :: c2 :: rest =>
    if (c1 = '2' ∧ (c2 = 'f' ∨ c2 = 'F')) ∨ (c1 = '5' ∧ (c2 = 'c' ∨ c2 = 'C'))
    then true
    else containsEncodedSep (c1 :: c2 :: rest)
  | _ :: rest => containsEncodedSep rest
  | [] => false

inductive FinalizeRes where
  | ok (u : JsUrl)
  | err (e : ErrKind)
deriving DecidableEq

/-- Result of `finalizeResolution` plus the `process.send({ 'watch:require'
… })` payloads it emitted. -/
structure FinalizeOut where
  res : FinalizeRes
  emits : List (List Char)
deriving DecidableEq

/-- JS `StringPrototypeSlice(path, -1)`: the substring from index
`length - 1`, that is the final character alone. -/
def jsSliceNeg1 (l : List Char) : List Char := l.drop (l.length - 1)

/-- The argument `finalizeResolution` passes to `internalModuleStat`
(resolve.js:213-214): `path.slice(-1)` — the final character alone — when
the path ends in `'/'`, the path itself otherwise.  `toNamespacedPath` is
the identity on POSIX paths. -/
def finalizeStatPath (path : List Char) : List Char :=
  if path.getLast? = some '/' then jsSliceNeg1 path else path

/-- `finalizeResolution` (resolve.js:205-240).  `stat` is
`internalModuleStat` (0 = file, 1 = directory, negative = missing) and
`toPath` is `fileURLToPath`, `realp` is `realpathSync` under the realpath
cache, `toFileURL` is `pathToFileURL` — all external bindings.  `watchEnv`
is `process.env.WATCH_REPORT_DEPENDENCIES` being set, `hasSend` is
`process.send` being present (an IPC channel): the source emits the watch
notification only when both hold (resolve.js:221-223). -/
def finalizeResolution (stat : List Char → Int) (toPath : JsUrl → List Char)
    (realp : List Char → List Char) (toFileURL : List Char → JsUrl)
    (watchEnv hasSend preserveSymlinks : Bool) (resolved : JsUrl) :
    FinalizeOut :=
  if containsEncodedSep resolved.pathname = true then
    ⟨.err .invalidModuleSpecifier, []⟩
  else
    let path := toPath resolved
    let stats := stat (finalizeStatPath path)
    if stats = 1 then ⟨.err .unsupportedDirImport, []⟩
    else if stats ≠ 0 then
      ⟨.err .moduleNotFound,
        if watchEnv = true ∧ hasSend = true then
          [if path = [] then resolved.pathname else path]
        else []⟩
    else if preserveSymlinks = true then ⟨.ok resolved, []⟩
    else
      let real := realp path
      let u := toFileURL (real ++ (if path.getLast? = some '/' then ['/'] else []))
      ⟨.ok { u with search := resolved.search, hash := resolved.hash }, []⟩

/-- C7 (amended): finalization of a `file:` URL throws
`InvalidModuleSpecifier` on a percent-encoded separator in the pathname
before any probe; otherwise a probe verdict of directory throws
`UnsupportedDirectoryImport`, a verdict of neither directory nor regular
file throws `ModuleNotFound` — emitting the watch-dependency notification
exactly when the watch environment flag is set AND an IPC `process.send`
channel is present — and only a regular-file verdict succeeds. -/
theorem c7_finalize_classification (stat : List Char → Int)
    (toPath : JsUrl → List Char) (realp : List Char → List Char)
    (toFileURL : List Char → JsUrl) (watchEnv hasSend preserveSymlinks : Bool)
    (resolved : JsUrl) :
    (containsEncodedSep resolved.pathname = true →
      finalizeResolution stat toPath realp toFileURL watchEnv hasSend
          preserveSymlinks resolved
        = ⟨.err .invalidModuleSpecifier, []⟩)
    ∧ (containsEncodedSep resolved.pathname = false →
        stat (finalizeStatPath (toPath resolved)) = 1 →
        finalizeResolution stat toPath realp toFileURL watchEnv hasSend
            preserveSymlinks resolved
          = ⟨.err .unsupportedDirImport, []⟩)
    ∧ (containsEncodedSep resolved.pathname = false →
        stat (finalizeStatPath (toPath resolved)) ≠ 1 →
        stat (finalizeStatPath (toPath resolved)) ≠ 0 →
        finalizeResolution stat toPath realp toFileURL watchEnv hasSend
            preserveSymlinks resolved
          = ⟨.err .moduleNotFound,
              if watchEnv = true ∧ hasSend = true then
                [if toPath resolved = [] then resolved.pathname
                 else toPath resolved]
              else []⟩)
    ∧ (containsEncodedSep resolved.pathname = false →
        stat (finalizeStatPath (toPath resolved)) = 0 →
        ∃ u, (finalizeResolution stat toPath realp toFileURL watchEnv hasSend
            preserveSymlinks resolved).res = .ok u) := by
  refine ⟨?_, ?_, ?_, ?_⟩
  · intro henc
    unfold finalizeResolution
    rw [if_pos henc]
  · intro henc hdir
    unfold finalizeResolution
    rw [if_neg (by simp [henc])]
    simp only
    rw [if_pos hdir]
  · intro henc hnd hnf
    unfold finalizeResolution
    rw [if_neg (by simp [henc])]
    simp only
    rw [if_neg hnd, if_pos hnf]
  · intro henc hfile
    unfold finalizeResolution
    rw [if_neg (by simp [henc])]
    simp only
    rw [if_neg (by simp [hfile]), if_neg (by simp [hfile])]
    by_cases hp : preserveSymlinks = true
    · rw [if_pos hp]
      exact ⟨resolved, rfl⟩
    · rw [if_neg hp]
      exact ⟨_, rfl⟩

/-- C7 counterexample to the claim as stated: with the watch environment
flag set but no IPC channel (`process.send` absent — the common
non-child-process case), a missing module throws `ModuleNotFound` but emits
no watch-dependency notification. -/
theorem c7_counterexample :
    finalizeResolution (fun _ => -2) (fun u => u.pathname) (fun p => p)
        (fun p => { protocol := "file:".toList, pathname := p, search := [],
                    hash := [], href := ("file://".toList) ++ p })
        true false true
        { protocol := "file:".toList, pathname := "/app/x.js".toList,
          search := [], hash := [], href := "file:///app/x.js".toList }
      = ⟨.err .moduleNotFound, []⟩ := by
  decide

/-- Witness for `c7_finalize_classification`: a pathname holding `%2F` is
rejected as an invalid module specifier. -/
theorem c7_finalize_classification_witness :
    finalizeResolution (fun _ => 0) (fun u => u.pathname) (fun p => p)
        (fun p => { protocol := "file:".toList, pathname := p, search := [],
                    hash := [], href := ("file://".toList) ++ p })
        false false true
        { protocol := "file:".toList, pathname := "/app/a%2Fb.js".toList,
          search := [], hash := [], href := "file:///app/a%2Fb.js".toList }
      = ⟨.err .invalidModuleSpecifier, []⟩ :=
  (c7_finalize_classification (fun _ => 0) (fun u => u.pathname) (fun p => p)
    (fun p => { protocol := "file:".toList, pathname := p, search := [],
                hash := [], href := ("file://".toList) ++ p })
    false false true
    { protocol := "file:".toList, pathname := "/app/a%2Fb.js".toList,
      search := [], hash := [], href := "file:///app/a%2Fb.js".toList }).1
    (by decide)

theorem jsSliceNeg1_getLast {l : List Char} {c : Char}
    (h : l.getLast? = some c) : jsSliceNeg1 l = [c] := by
  induction l with
  | nil => simp at h
  | cons a rest ih =>
    rcases rest with _ | ⟨b, t⟩
    · simp at h
      subst h
      rfl
    · rw [List.getLast?_cons_cons] at h
      have h2 := ih h
      unfold jsSliceNeg1 at h2 ⊢
      have e1 : (a :: b :: t).length - 1 = t.length + 1 := by simp
      rw [e1, List.drop_succ_cons]
      have e2 : (b :: t).length - 1 = t.length := by simp
      rw [e2] at h2
      exact h2

/-- C10: when the resolved path ends in `'/'`, finalization stats
`path.slice(-1)` — the one-character string `"/"` — rather than the path
with its trailing slash removed, so the verdict is the filesystem root's:
whenever the probe reports `/` as a directory, any trailing-slash `file:`
resolution fails with `UnsupportedDirectoryImport`, regardless of what the
probe would report at the named path. -/
theorem c10_trailing_slash_stats_root (stat : List Char → Int)
    (toPath : JsUrl → List Char) (realp : List Char → List Char)
    (toFileURL : List Char → JsUrl) (watchEnv hasSend preserveSymlinks : Bool)
    (resolved : JsUrl)
    (hsl : (toPath resolved).getLast? = some '/') :
    finalizeStatPath (toPath resolved) = ['/']
    ∧ (containsEncodedSep resolved.pathname = false →
        stat ['/'] = 1 →
        finalizeResolution stat toPath realp toFileURL watchEnv hasSend
            preserveSymlinks resolved
          = ⟨.err .unsupportedDirImport, []⟩) := by
  have hsp : finalizeStatPath (toPath resolved) = ['/'] := by
    unfold finalizeStatPath
    rw [if_pos hsl]
    exact jsSliceNeg1_getLast hsl
  refine ⟨hsp, ?_⟩
  intro henc hroot
  exact (c7_finalize_classification stat toPath realp toFileURL watchEnv
    hasSend preserveSymlinks resolved).2.1 henc (by rw [hsp]; exact hroot)

/-- Witness for `c10_trailing_slash_stats_root`: a stat oracle that reports
the root `/` as a directory and everything else as a regular file still
fails a trailing-slash resolution with `UnsupportedDirectoryImport`. -/
theorem c10_trailing_slash_stats_root_witness :
    finalizeResolution (fun p => if p = ['/'] then 1 else 0)
        (fun u => u.pathname) (fun p => p)
        (fun p => { protocol := "file:".toList, pathname := p, search := [],
                    hash := [], href := ("file://".toList) ++ p })
        false false true
        { protocol := "file:".toList, pathname := "/app/dir/".toList,
          search := [], hash := [], href := "file:///app/dir/".toList }
      = ⟨.err .unsupportedDirImport, []⟩ :=
  (c10_trailing_slash_stats_root (fun p => if p = ['/'] then 1 else 0)
    (fun u => u.pathname) (fun p => p)
    (fun p => { protocol := "file:".toList, pathname := p, search := [],
                hash := [], href := ("file://".toList) ++ p })
    false false true
    { protocol := "file:".toList, pathname := "/app/dir/".toList,
      search := [], hash := [], href := "file:///app/dir/".toList }
    (by decide)).2 (by decide) (by decide)

/-! ## Top-level dispatch (`moduleResolve` / `defaultResolve` / name parsing,
resolve.js:686-717, 791-837, 886-927, 942-1069) -/

/-- `isRelativeSpecifier` (resolve.js:791-799). -/
def isRelativeSpecifier (specifier : List Char) : Bool :=
  match specifier with
  | '.' :: rest =>
    match rest with
    | [] => true
    | '/' :: _ => true
    | '.' :: rest2 =>
      match rest2 with
      | [] => true
      | '/' :: _ => true
      | _ => false
    | _ => false
  | _ => false

/-- `shouldBeTreatedAsRelativeOrAbsolutePath` (resolve.js:801-805). -/
def shouldBeTreatedAsRelativeOrAbsolutePath (specifier : List Char) : Bool :=
  if specifier = [] then false
  else if specifier.head? = some '/' then true
  else isRelativeSpecifier specifier

/-- First index of `c`, JS `StringPrototypeIndexOf` with `none` for `-1`. -/
def firstIdxOf (c : Char) : List Char → Option Nat
  | [] => none
  | a :: rest => if a = c then some 0 else (firstIdxOf c rest).map (fun i => i + 1)

/-- `parsePackageName` (resolve.js:686-717): locate the name/subpath split
(`/` for plain names, the second `/` for `@`-scoped ones), reject names that
are scoped without a slash, start with `.`, or contain `%` or a backslash;
the subpath is `'.'` plus everything from the separator on. -/
def parsePackageName (specifier : List Char) :
    Except ErrKind (List Char × List Char × Bool) :=
  let sep0 := firstIdxOf '/' specifier
  let sepValid : Option Nat × Bool :=
    if specifier.head? = some '@' then
      match sep0 with
      | none => (none, false)
      | some i =>
        ((firstIdxOf '/' (specifier.drop (i + 1))).map (fun j => i + 1 + j), true)
    else (sep0, true)
  let packageName :=
    match sepValid.1 with
    | none => specifier
    | some i => specifier.take i
  if sepValid.2 = true ∧ packageName.head? ≠ some '.'
      ∧ packageName.contains '%' = false ∧ packageName.contains '\\' = false then
    .ok (packageName,
      '.' :: (match sepValid.1 with | none => [] | some i => specifier.drop i),
      decide (specifier.head? = some '@'))
  else .error .invalidModuleSpecifier

/-- The `resolved` computation of `moduleResolve` (resolve.js:819-832):
relative/absolute specifiers join against the base, `#` specifiers go to
`packageImportsResolve` (unless the base is remote), URL specifiers parse,
and everything else goes to `packageResolve` (a remote base with an
unparseable specifier leaves `resolved` undefined and the following
property access throws, modelled as `otherError`).  `urlParse` models
`new URL(s)` (`none` = throws), `urlJoin` models `new URL(specifier, base)`
(`none` = throws, propagated). -/
def moduleResolveCore (urlParse : List Char → Option JsUrl)
    (urlJoin : List Char → JsUrl → Option JsUrl)
    (pkgImports : List Char → Except ErrKind JsUrl)
    (pkgRes : List Char → Except ErrKind JsUrl)
    (specifier : List Char) (base : JsUrl) : Except ErrKind JsUrl :=
  if shouldBeTreatedAsRelativeOrAbsolutePath specifier = true then
    match urlJoin specifier base with
    | some u => .ok u
    | none => .error .otherError
  else if ¬ (base.protocol = ("http:".toList)
        ∨ base.protocol = ("https:".toList)) ∧ specifier.head? = some '#' then
    pkgImports specifier
  else
    match urlParse specifier with
    | some u => .ok u
    | none =>
      if ¬ (base.protocol = ("http:".toList)
          ∨ base.protocol = ("https:".toList)) then pkgRes specifier
      else .error .otherError

/-- `moduleResolve` (resolve.js:814-837): compute `resolved`, then return a
non-`file:` result as-is — bypassing finalization — and finalize `file:`
results through `finalizeFn` (`finalizeResolution` with options fixed). -/
def moduleResolve (urlParse : List Char → Option JsUrl)
    (urlJoin : List Char → JsUrl → Option JsUrl)
    (pkgImports : List Char → Except ErrKind JsUrl)
    (pkgRes : List Char → Except ErrKind JsUrl)
    (finalizeFn : JsUrl → Except ErrKind JsUrl)
    (specifier : List Char) (base : JsUrl) : Except ErrKind JsUrl :=
  match moduleResolveCore urlParse urlJoin pkgImports pkgRes specifier base with
  | .error e => .error e
  | .ok resolved =>
    if resolved.protocol ≠ ("file:".toList) then .ok resolved
    else finalizeFn resolved

/-- `checkIfDisallowedImport` (resolve.js:886-927): `none` = fall through,
`some (.ok href)` = early `{ url }` return, `some (.error …)` = throw.
When a relative specifier under a remote parent failed to parse, the
source's `parsed.href` access on `undefined` throws a TypeError, modelled
as `otherError`. -/
def checkIfDisallowedImport (canBeReq : List Char → Bool)
    (specifier : List Char) :
    Option JsUrl → Option JsUrl → Option (Except ErrKind (List Char))
  | _, none => none
  | parsed, some pp =>
    if pp.protocol = ("http:".toList) ∨ pp.protocol = ("https:".toList) then
      if shouldBeTreatedAsRelativeOrAbsolutePath specifier = true then
        match parsed with
        | some p =>
          if p.protocol ≠ ("https:".toList) ∧ p.protocol ≠ ("http:".toList) then
            some (.error .networkImportDisallowed)
          else some (.ok p.href)
        | none => some (.error .otherError)
      else if canBeReq specifier = true then
        some (.error .networkImportDisallowed)
      else some (.error .networkImportDisallowed)
    else none

/-- Tail of `defaultResolve` after the data/network pass-through: the
network-import guard, the `node:` as-is return, and the `moduleResolve`
dispatch whose URL is returned as `{ url: url.href }` (resolve.js:1006-1069;
the "did you mean" annotation rewrites only the message of an already-thrown
error, and the `format` probe is external). -/
def defaultResolveRest (canBeReq : List Char → Bool)
    (moduleResolveFn : List Char → List Char → Except ErrKind JsUrl)
    (specifier parentURL : List Char)
    (parsed parsedParentURL : Option JsUrl) : Except ErrKind (List Char) :=
  match checkIfDisallowedImport canBeReq specifier parsed parsedParentURL with
  | some (.ok href) => .ok href
  | some (.error e) => .error e
  | none =>
    let isNode : Bool :=
      match parsed with
      | some u => decide (u.protocol = ("node:".toList))
      | none => false
    if isNode = true then .ok specifier
    else
      match moduleResolveFn specifier parentURL with
      | .ok u => .ok u.href
      | .error e => .error e

/-- The `parsed` computation of `defaultResolve` (resolve.js:979-1001):
relative/absolute specifiers are joined against the parsed parent, others
parsed as absolute URLs; a constructor throw leaves `parsed` undefined
(`none`). -/
def parsedSpecifier (urlParse : List Char → Option JsUrl)
    (urlJoin : List Char → JsUrl → Option JsUrl)
    (specifier parentURL : List Char) : Option JsUrl :=
  if shouldBeTreatedAsRelativeOrAbsolutePath specifier = true then
    (urlParse parentURL).bind (fun pp => urlJoin specifier pp)
  else urlParse specifier

/-- `defaultResolve` (resolve.js:942-1039) for a present `parentURL` and no
policy manifest (`--experimental-policy` unset, so `policy` is `null`):
parse the parent, parse (or join) the specifier swallowing failures, pass
`data:` — and with `--experimental-network-imports`, `http(s):` — URLs
straight through as `{ url: parsed.href }`, then run the tail. -/
def defaultResolve (urlParse : List Char → Option JsUrl)
    (urlJoin : List Char → JsUrl → Option JsUrl)
    (canBeReq : List Char → Bool)
    (moduleResolveFn : List Char → List Char → Except ErrKind JsUrl)
    (netImports : Bool) (specifier parentURL : List Char) :
    Except ErrKind (List Char) :=
  match parsedSpecifier urlParse urlJoin specifier parentURL with
  | some u =>
    if u.protocol = ("data:".toList)
        ∨ (netImports = true
          ∧ (u.protocol = ("https:".toList) ∨ u.protocol = ("http:".toList))) then
      .ok u.href
    else defaultResolveRest canBeReq moduleResolveFn specifier parentURL
      (some u) (urlParse parentURL)
  | none => defaultResolveRest canBeReq moduleResolveFn specifier parentURL
      none (urlParse parentURL)

theorem defaultResolve_parsed_some (urlParse : List Char → Option JsUrl)
    (urlJoin : List Char → JsUrl → Option JsUrl)
    (canBeReq : List Char → Bool)
    (moduleResolveFn : List Char → List Char → Except ErrKind JsUrl)
    (netImports : Bool) (specifier parentURL : List Char) (u : JsUrl)
    (hps : parsedSpecifier urlParse urlJoin specifier parentURL = some u) :
    defaultResolve urlParse urlJoin canBeReq moduleResolveFn netImports
        specifier parentURL
      = (if u.protocol = ("data:".toList)
            ∨ (netImports = true
              ∧ (u.protocol = ("https:".toList)
                ∨ u.protocol = ("http:".toList))) then
          Except.ok u.href
        else defaultResolveRest canBeReq moduleResolveFn specifier parentURL
          (some u) (urlParse parentURL)) := by
  unfold defaultResolve
  rw [hps]

/-- C8: a specifier that already parses as a `node:` URL is returned
verbatim by `defaultResolve` under a `file:` parent; a `data:` URL returns
its own href — the input specifier itself whenever the specifier is its own
URL serialization — before any network guard runs; and in full generality
`moduleResolve` returns any successfully resolved URL whose scheme is not
`file:` as-is — whether it came from URL parsing, from
`packageImportsResolve`, from `packageResolve` (e.g. a builtin name's
`node:` URL), or from a join against a remote base — for every finalization
function, so finalization is bypassed entirely on non-`file:` results. -/
theorem c8_url_scheme_passthrough :
    (∀ (urlParse : List Char → Option JsUrl)
        (urlJoin : List Char → JsUrl → Option JsUrl)
        (canBeReq : List Char → Bool)
        (moduleResolveFn : List Char → List Char → Except ErrKind JsUrl)
        (netImports : Bool) (specifier parentURL : List Char) (pp u : JsUrl),
      urlParse parentURL = some pp → pp.protocol = ("file:".toList) →
      urlParse specifier = some u → u.protocol = ("node:".toList) →
      shouldBeTreatedAsRelativeOrAbsolutePath specifier = false →
      defaultResolve urlParse urlJoin canBeReq moduleResolveFn netImports
          specifier parentURL
        = .ok specifier)
    ∧ (∀ (urlParse : List Char → Option JsUrl)
        (urlJoin : List Char → JsUrl → Option JsUrl)
        (canBeReq : List Char → Bool)
        (moduleResolveFn : List Char → List Char → Except ErrKind JsUrl)
        (netImports : Bool) (specifier parentURL : List Char) (u : JsUrl),
      urlParse specifier = some u → u.protocol = ("data:".toList) →
      shouldBeTreatedAsRelativeOrAbsolutePath specifier = false →
      u.href = specifier →
      defaultResolve urlParse urlJoin canBeReq moduleResolveFn netImports
          specifier parentURL
        = .ok specifier)
    ∧ (∀ (urlParse : List Char → Option JsUrl)
        (urlJoin : List Char → JsUrl → Option JsUrl)
        (pkgImports pkgRes : List Char → Except ErrKind JsUrl)
        (finalizeFn : JsUrl → Except ErrKind JsUrl)
        (specifier : List Char) (base : JsUrl) (u : JsUrl),
      moduleResolveCore urlParse urlJoin pkgImports pkgRes specifier base
        = .ok u →
      u.protocol ≠ ("file:".toList) →
      moduleResolve urlParse urlJoin pkgImports pkgRes finalizeFn specifier base
        = .ok u) := by
  refine ⟨?_, ?_, ?_⟩
  · intro urlParse urlJoin canBeReq mrf netImports specifier parentURL pp u
      hpp hppf hparse hnode hrel
    have hps : parsedSpecifier urlParse urlJoin specifier parentURL = some u := by
      unfold parsedSpecifier
      rw [hrel]
      simp [hparse]
    rw [defaultResolve_parsed_some urlParse urlJoin canBeReq mrf netImports
      specifier parentURL u hps]
    rw [if_neg (by
      intro h
      rcases h with h | ⟨-, h | h⟩ <;> rw [hnode] at h <;>
        exact absurd h (by decide))]
    unfold defaultResolveRest
    rw [hpp]
    have hcheck : checkIfDisallowedImport canBeReq specifier (some u) (some pp)
        = none := by
      simp only [checkIfDisallowedImport]
      rw [if_neg (by
        intro h
        rcases h with h | h <;> rw [hppf] at h <;> exact absurd h (by decide))]
    rw [hcheck]
    simp [hnode]
  · intro urlParse urlJoin canBeReq mrf netImports specifier parentURL u
      hparse hdata hrel hhref
    have hps : parsedSpecifier urlParse urlJoin specifier parentURL = some u := by
      unfold parsedSpecifier
      rw [hrel]
      simp [hparse]
    rw [defaultResolve_parsed_some urlParse urlJoin canBeReq mrf netImports
      specifier parentURL u hps]
    rw [if_pos (Or.inl hdata), hhref]
  · intro urlParse urlJoin pkgImports pkgRes finalizeFn specifier base u
      hcore hnf
    unfold moduleResolve
    rw [hcore]
    show (if u.protocol ≠ ("file:".toList) then Except.ok u else finalizeFn u)
      = Except.ok u
    rw [if_pos hnf]

/-- Witness for `c8_url_scheme_passthrough`: a toy URL oracle mapping
`node:fs` and `file:///a/b.js` to their parses returns `node:fs` verbatim
when imported from `file:///a/b.js`; and `moduleResolve`, given a
`packageResolve` oracle that resolves the bare name `fs` to the builtin URL
`node:fs`, returns that `node:` URL without calling finalization. -/
theorem c8_url_scheme_passthrough_witness :
    (defaultResolve
      (fun s =>
        if s = ("node:fs".toList) then
          some { protocol := "node:".toList, pathname := "fs".toList,
                 search := [], hash := [], href := "node:fs".toList }
        else if s = ("file:///a/b.js".toList) then
          some { protocol := "file:".toList, pathname := "/a/b.js".toList,
                 search := [], hash := [], href := "file:///a/b.js".toList }
        else none)
      (fun _ _ => none) (fun _ => false)
      (fun _ _ => Except.error ErrKind.otherError) false
      ("node:fs".toList) ("file:///a/b.js".toList)
      = .ok ("node:fs".toList))
    ∧ (moduleResolve (fun _ => none) (fun _ _ => none)
      (fun _ => Except.error ErrKind.otherError)
      (fun _ => Except.ok { protocol := "node:".toList, pathname := "fs".toList,
                            search := [], hash := [], href := "node:fs".toList })
      (fun _ => Except.error ErrKind.otherError)
      ("fs".toList)
      { protocol := "file:".toList, pathname := "/a/b.js".toList,
        search := [], hash := [], href := "file:///a/b.js".toList }
      = .ok { protocol := "node:".toList, pathname := "fs".toList,
              search := [], hash := [], href := "node:fs".toList }) := by
  constructor
  · exact c8_url_scheme_passthrough.1 _ _ _ _ false ("node:fs".toList)
      ("file:///a/b.js".toList)
      { protocol := "file:".toList, pathname := "/a/b.js".toList,
        search := [], hash := [], href := "file:///a/b.js".toList }
      { protocol := "node:".toList, pathname := "fs".toList,
        search := [], hash := [], href := "node:fs".toList }
      (by decide) (by decide) (by decide) (by decide) (by decide)
  · exact c8_url_scheme_passthrough.2.2 _ _ _ _ _ _ _ _ rfl (by decide)

/-- C9 counterexample to the claim as stated: the empty specifier is not
rejected with an invalid-specifier error — the classifier merely reports
"not relative or absolute", and `parsePackageName` accepts the empty string
as a bare package name (empty name, subpath `'.'`, unscoped) instead of
throwing `InvalidModuleSpecifier` (its leading-dot/percent/backslash regex
does not match the empty name and the `@`-branch length check is never
reached). -/
theorem c9_counterexample :
    shouldBeTreatedAsRelativeOrAbsolutePath [] = false
    ∧ parsePackageName [] = .ok ([], ['.'], false) := by
  constructor
  · rfl
  · rfl

/-- C9 (amended): the empty-string specifier is classified as neither
relative nor absolute, `parsePackageName` accepts it as a bare package name
with empty name and subpath `'.'`, and `moduleResolve` under a non-remote
base routes it into `packageResolve`'s bare-name walk (it neither matches
the `#` branch nor parses as a URL), so resolution proceeds — and fails —
as a bare package lookup rather than with an invalid-specifier error. -/
theorem c9_empty_specifier_bare (urlParse : List Char → Option JsUrl)
    (urlJoin : List Char → JsUrl → Option JsUrl)
    (pkgImports pkgRes : List Char → Except ErrKind JsUrl) (base : JsUrl)
    (hparse : urlParse [] = none)
    (hbase : ¬ (base.protocol = ("http:".toList)
      ∨ base.protocol = ("https:".toList))) :
    shouldBeTreatedAsRelativeOrAbsolutePath [] = false
    ∧ parsePackageName [] = .ok ([], ['.'], false)
    ∧ moduleResolveCore urlParse urlJoin pkgImports pkgRes [] base
      = pkgRes [] := by
  refine ⟨rfl, by rfl, ?_⟩
  unfold moduleResolveCore
  rw [if_neg (by decide : ¬ shouldBeTreatedAsRelativeOrAbsolutePath [] = true)]
  rw [if_neg (by
    intro h
    exact absurd h.2 (by decide))]
  rw [hparse]
  show (if ¬ (base.protocol = ("http:".toList)
      ∨ base.protocol = ("https:".toList)) then pkgRes []
    else Except.error ErrKind.otherError) = pkgRes []
  rw [if_pos hbase]

/-- Witness for `c9_empty_specifier_bare`: with a URL oracle rejecting the
empty string and a bare-package resolver that fails with `ModuleNotFound`,
the empty specifier resolves through the bare path to `ModuleNotFound`. -/
theorem c9_empty_specifier_bare_witness :
    moduleResolveCore (fun _ => none) (fun _ _ => none)
        (fun _ => Except.error ErrKind.otherError)
        (fun _ => Except.error ErrKind.moduleNotFound) []
        { protocol := "file:".toList, pathname := "/a/b.js".toList,
          search := [], hash := [], href := "file:///a/b.js".toList }
      = Except.error ErrKind.moduleNotFound := by
  have h := c9_empty_specifier_bare (fun _ => none) (fun _ _ => none)
    (fun _ => Except.error ErrKind.otherError)
    (fun _ => Except.error ErrKind.moduleNotFound)
    { protocol := "file:".toList, pathname := "/a/b.js".toList,
      search := [], hash := [], href := "file:///a/b.js".toList }
    (by decide) (by decide)
  rw [h.2.2]

end NodeResolve
